import Mathlib

/-!
# Risk-of-bias assessment tool: scoring and aggregation engine

A shallow embedding of `my-app/src/App.jsx` and the properties of its scoring
model, domain risk classifier, cross-study aggregator and study registry.

Conventions of the embedding:

* a JS object used as a dictionary is an association list in key insertion
  order (`Object.values`, `Object.entries` and the spread `{...o}` follow it);
* a JS array of scores is a list of slots, a slot being `some n` (the number
  `n`) or `none` (a hole left by a write past the end of the array);
* a number is a binary64 value (`JSNum`): every `+`, `/` and `*` on scores is
  rounded to nearest, ties to even; lengths, counts and indices are natural
  numbers, and an integer score `n` stands for the number `n`;
* React state is passed explicitly: an event handler maps the state it
  closes over to the next state.
-/

namespace RiskOfBias

/-! ## Criteria catalog -/

/-- The two keys of `criteriaInfo`. -/
inductive StudyType where
  | caseControl
  | cohort
  deriving DecidableEq

/-- The constant `criteriaInfo`: per study type, the domains in key order with
their criterion texts. -/
def criteriaInfo : StudyType → List (String × List String)
  | .caseControl =>
    [("selection",
        ["Is the case definition adequate?",
         "Representativeness of the cases",
         "Selection of Controls",
         "Definition of Controls"]),
     ("comparability",
        ["Comparability of cases and controls on the basis of the design or analysis"]),
     ("exposure",
        ["Ascertainment of exposure",
         "Same method of ascertainment for cases and controls",
         "Non-Response rate"])]
  | .cohort =>
    [("selection",
        ["Representativeness of the exposed cohort",
         "Selection of the non exposed cohort",
         "Ascertainment of exposure",
         "Demonstration that outcome of interest was not present at start of study"]),
     ("comparability",
        ["Comparability of cohorts on the basis of the design or analysis"]),
     ("outcome",
        ["Assessment of outcome",
         "Was follow-up long enough for outcomes to occur",
         "Adequacy of follow up of cohorts"])]

/-- The star count handed to `renderStars`:
`category === 'comparability' ? 2 : 1`. -/
def maxStars (category : String) : Int :=
  if category = "comparability" then 2 else 1

/-! ## Numbers -/

/-- Round to the nearest integer, a tie going to the even neighbour. -/
def roundHalfEven (y : ℚ) : ℤ :=
  if y - ⌊y⌋ < 1 / 2 then ⌊y⌋
  else if 1 / 2 < y - ⌊y⌋ then ⌊y⌋ + 1
  else if ⌊y⌋ % 2 = 0 then ⌊y⌋ else ⌊y⌋ + 1

/-- The binary exponent used to round `x`: that of its leading bit, and not
below the smallest normal exponent (below it the spacing stays `2 ^ (-1074)`). -/
def binExp (x : ℚ) : ℤ :=
  max (Int.log 2 |x|) (-1022)

/-- Round a rational to the nearest binary64 value: 53 significant bits, ties
to even, with the exponent unbounded above. -/
def fl (x : ℚ) : ℚ :=
  if x = 0 then 0
  else (roundHalfEven (x / 2 ^ (binExp x - 52)) : ℚ) * 2 ^ (binExp x - 52)

/-- A JS number: a finite binary64 value, an infinity or NaN. The sign of
zero is not kept (nothing below divides by a computed zero). -/
inductive JSNum where
  | fin (q : ℚ)
  | posInf
  | negInf
  | nan
  deriving DecidableEq

/-- The binary64 result of an operation whose exact result is `x`: rounding
to `2 ^ 1024` or beyond overflows to an infinity. -/
def JSNum.ofRat (x : ℚ) : JSNum :=
  if 2 ^ 1024 ≤ fl x then JSNum.posInf
  else if fl x ≤ -(2 ^ 1024) then JSNum.negInf
  else JSNum.fin (fl x)

/-- The quotient `a / b` of an integer by a length: `0 / 0` is NaN and a
non-zero integer over 0 is an infinity. -/
def JSNum.div (a : Int) (b : Nat) : JSNum :=
  if b = 0 then
    if a = 0 then JSNum.nan else if 0 < a then JSNum.posInf else JSNum.negInf
  else JSNum.ofRat ((a : ℚ) / (b : ℚ))

/-- The sum `x + y`: the exact sum of two finite numbers is rounded; opposite
infinities and NaN give NaN. -/
def JSNum.add : JSNum → JSNum → JSNum
  | JSNum.fin a, JSNum.fin b => JSNum.ofRat (a + b)
  | JSNum.nan, _ => JSNum.nan
  | _, JSNum.nan => JSNum.nan
  | JSNum.posInf, JSNum.negInf => JSNum.nan
  | JSNum.negInf, JSNum.posInf => JSNum.nan
  | JSNum.posInf, _ => JSNum.posInf
  | _, JSNum.posInf => JSNum.posInf
  | JSNum.negInf, _ => JSNum.negInf
  | _, JSNum.negInf => JSNum.negInf

/-- The quotient `x / b` of a number by a length: a finite quotient is
rounded, `0 / 0` is NaN, a non-zero number over 0 is an infinity, and an
infinity or NaN stays what it is. -/
def JSNum.divLength (x : JSNum) (b : Nat) : JSNum :=
  match x with
  | JSNum.fin a =>
    if b = 0 then
      if a = 0 then JSNum.nan else if 0 < a then JSNum.posInf else JSNum.negInf
    else JSNum.ofRat (a / (b : ℚ))
  | JSNum.posInf => JSNum.posInf
  | JSNum.negInf => JSNum.negInf
  | JSNum.nan => JSNum.nan

/-- The product `x * 100`. -/
def JSNum.times100 : JSNum → JSNum
  | JSNum.fin q => JSNum.ofRat (q * 100)
  | JSNum.posInf => JSNum.posInf
  | JSNum.negInf => JSNum.negInf
  | JSNum.nan => JSNum.nan

/-- The comparison `x > c` with a finite constant `c`; it is false for NaN. -/
def JSNum.gt (x : JSNum) (c : ℚ) : Bool :=
  match x with
  | JSNum.fin q => decide (c < q)
  | JSNum.posInf => true
  | JSNum.negInf => false
  | JSNum.nan => false

/-! ## Study scoring model -/

/-- One slot of a JS array of scores: an integer-valued number, or a hole.
Every integer of magnitude up to `2 ^ 53` is a number. -/
abbrev Slot := Option Int

/-- The `scores` object: domain name to score array, in key order. -/
abbrev ScoreSet := List (String × List Slot)

/-- The initial `scores` state of `StudyAssessment`. -/
def initialScores (type : StudyType) : ScoreSet :=
  [("selection", [some 0, some 0, some 0, some 0]),
   ("comparability", [some 0]),
   (if type = StudyType.caseControl then "exposure" else "outcome",
      [some 0, some 0, some 0])]

/-- The elements an array iteration visits: `flat` and `reduce` skip holes. -/
def present (arr : List Slot) : List Int :=
  arr.filterMap id

/-- The callback `(a, b) => a + b` of `reduce` applied to the accumulator and
an integer score. -/
def addScore (a : JSNum) (b : Int) : JSNum :=
  JSNum.add a (JSNum.fin (b : ℚ))

/-- The expression `Object.values(scores).flat().reduce((a, b) => a + b, 0)`. -/
def totalScore (scores : ScoreSet) : JSNum :=
  ((scores.map Prod.snd).flatMap present).foldl addScore (JSNum.fin 0)

/-- The expression `scoreArray.reduce((a, b) => a + b, 0)` of one domain. -/
def domainSum (scoreArray : List Slot) : JSNum :=
  (present scoreArray).foldl addScore (JSNum.fin 0)

/-- The sum of the absolute values of a list of integers. -/
def absTotal (l : List Int) : Nat :=
  (l.map Int.natAbs).sum

/-- The star total of a catalog domain: its criterion count times its star
count, 0 for a name that is not a domain of the study type. -/
def weight (type : StudyType) (category : String) : Int :=
  match (criteriaInfo type).lookup category with
  | some criteria => (criteria.length : Int) * maxStars category
  | none => 0

/-- A score set has the catalog's shape for a study type, with every entry a
number between 0 and its domain's star count: its keys are the domains of
`criteriaInfo` for the type (in any order), and each score array is as long as
the domain's criterion list. -/
def WellScored (type : StudyType) (scores : ScoreSet) : Prop :=
  (scores.map Prod.fst).Perm ((criteriaInfo type).map Prod.fst) ∧
  ∀ entry ∈ scores, ∃ criteria, (criteriaInfo type).lookup entry.1 = some criteria ∧
    entry.2.length = criteria.length ∧
    ∀ slot ∈ entry.2, ∃ n : Int, slot = some n ∧ 0 ≤ n ∧ n ≤ maxStars entry.1

/-- Every entry of the score set holds its domain's star count. -/
def AllAtMax (scores : ScoreSet) : Prop :=
  ∀ entry ∈ scores, ∀ slot ∈ entry.2, slot = some (maxStars entry.1)

/-- The sum over all catalog criteria of their star counts. -/
def catalogMaxTotal (type : StudyType) : Int :=
  ((criteriaInfo type).map (fun info => (info.2.length : Int) * maxStars info.1)).sum

/-- An array index: an integer from 0 to `2 ^ 32 - 2`. -/
abbrev ArrayIndex := Fin 4294967295

/-- The statement `arr[index] = value` for an array index: inside the array
it replaces the slot, past the end the array grows to length `index + 1` and
the slots skipped are holes. -/
def arraySet (arr : List Slot) (index : ArrayIndex) (value : Int) : List Slot :=
  if index.val < arr.length then arr.set index.val (some value)
  else arr ++ List.replicate (index.val - arr.length) none ++ [some value]

/-- The read `arr[j]`: a hole and a position past the end both read as
`undefined`. -/
def arrayGet (arr : List Slot) (j : Nat) : Slot :=
  arr.getD j none

/-- Apply `f` to the array stored under `category` (keys of an object are
unique; the first pair with the key is the property). -/
def modifyKey (category : String) (f : List Slot → List Slot) : ScoreSet → ScoreSet
  | [] => []
  | entry :: rest =>
    if entry.1 = category then (entry.1, f entry.2) :: rest
    else entry :: modifyKey category f rest

/-- What a handler can throw. -/
inductive JSError where
  | typeError
  deriving DecidableEq

/-- The property names every object inherits from `Object.prototype`; a read
of one of them on the score object gives a built-in object, not `undefined`. -/
def inheritedNames : List String :=
  ["constructor", "hasOwnProperty", "isPrototypeOf", "propertyIsEnumerable",
   "toLocaleString", "toString", "valueOf", "__proto__", "__defineGetter__",
   "__defineSetter__", "__lookupGetter__", "__lookupSetter__"]

/-- The updater of `updateScore`: `newScores = { ...prevScores }` followed by
`newScores[category][index] = value`, returning `newScores`. For a key of the
object the write changes that key's array. For a name that is not a key and
is inherited, the write lands on a built-in object outside the score set and
the copy is returned as it is. For any other name `newScores[category]` is
`undefined` and the write throws. The write goes through the array shared
with `prevScores`; the previous state object is dropped by `setScores`, so
only the returned object is modelled. -/
def updateScore (prevScores : ScoreSet) (category : String) (index : ArrayIndex)
    (value : Int) : Except JSError ScoreSet :=
  match prevScores.lookup category with
  | some _ => Except.ok (modifyKey category (fun arr => arraySet arr index value) prevScores)
  | none =>
    if category ∈ inheritedNames then Except.ok prevScores
    else Except.error JSError.typeError

/-! ## Domain risk classifier -/

/-- The two values of `risk`. -/
inductive Risk where
  | Low
  | High
  deriving DecidableEq

/-- The `risk` of one domain in `TrafficLightPlot`:
`scoreArray.reduce((a, b) => a + b, 0) / scoreArray.length > 0.5 ? 'Low' : 'High'`. -/
def risk (scoreArray : List Slot) : Risk :=
  if (JSNum.divLength (domainSum scoreArray) scoreArray.length).gt (1 / 2) then Risk.Low
  else Risk.High

/-- The `data` of `TrafficLightPlot`. -/
def trafficLightData (scores : ScoreSet) : List (String × Risk) :=
  scores.map (fun entry => (entry.1, risk entry.2))

/-! ## Cross-study aggregator -/

/-- The `domainScores` of `WeightedBarPlot`:
`allScores.map(score => score[domain]).flat()`. A study without the domain
contributes the element `undefined` (`none`); `flat` drops the holes of the
arrays it splices in. -/
def domainScores (allScores : List ScoreSet) (domain : String) : List Slot :=
  (allScores.map (fun score => score.lookup domain)).flatMap
    (fun v => match v with
      | some arr => (present arr).map some
      | none => [none])

/-- The filter predicate `score => score > 0`; `undefined > 0` is false. -/
def isPositive : Slot → Bool
  | some n => decide (0 < n)
  | none => false

/-- One element of the `data` of `WeightedBarPlot`. -/
structure BarRow where
  domain : String
  lowRisk : JSNum
  highRisk : JSNum
  deriving DecidableEq

/-- The body of `domains.map(domain => ...)` in `WeightedBarPlot`. -/
def weightedBarRow (allScores : List ScoreSet) (domain : String) : BarRow :=
  let total : Nat := (domainScores allScores domain).length
  let low : Nat := ((domainScores allScores domain).filter isPositive).length
  let high : Int := (total : Int) - (low : Int)
  BarRow.mk domain (JSNum.div low total).times100 (JSNum.div high total).times100

/-- The `data` of `WeightedBarPlot`: one row per key of
`criteriaInfo.caseControl`. -/
def weightedBarData (allScores : List ScoreSet) : List BarRow :=
  ((criteriaInfo StudyType.caseControl).map Prod.fst).map (weightedBarRow allScores)

/-! ## Study registry -/

/-- An element of `studies`. -/
structure Study where
  id : Nat
  type : StudyType
  name : String
  scores : ScoreSet
  deriving DecidableEq

/-- The state of `RiskOfBiasAssessmentTool`: `studies` and `currentStudy`
(a study id, or `null`). -/
structure Registry where
  studies : List Study
  currentStudy : Option Nat
  deriving DecidableEq

/-- The initial state: one study with id 1, selected. -/
def initialRegistry : Registry :=
  Registry.mk [Study.mk 1 StudyType.caseControl "Study 1" []] (some 1)

/-- The handler `addStudy`. -/
def addStudy (r : Registry) : Registry :=
  let newStudy : Study :=
    Study.mk (r.studies.length + 1) StudyType.caseControl
      ("Study " ++ Nat.repr (r.studies.length + 1)) []
  Registry.mk (r.studies ++ [newStudy]) (some newStudy.id)

/-- The expression `x || null` for `x` a number or `undefined`: the falsy
values 0 and `undefined` give `null`. -/
def orNull : Option Nat → Option Nat
  | some 0 => none
  | some (n + 1) => some (n + 1)
  | none => none

/-- The handler `removeStudy`. -/
def removeStudy (r : Registry) (id : Nat) : Registry :=
  let newStudies := r.studies.filter (fun study => study.id != id)
  Registry.mk newStudies
    (if r.currentStudy = some id then orNull (newStudies.head?.map Study.id)
     else r.currentStudy)

/-- The click handler `setCurrentStudy(study.id)` of a listed study. -/
def setCurrentStudy (r : Registry) (id : Nat) : Registry :=
  Registry.mk r.studies (some id)

/-- The lookup `studies.find(study => study.id === currentStudy)`. -/
def currentStudyData (r : Registry) : Option Study :=
  r.studies.find? (fun study => decide (some study.id = r.currentStudy))

/-- The registry states reachable from the initial one by `addStudy`,
`removeStudy` with any id, and selecting a study that is listed. -/
inductive Reachable : Registry → Prop where
  | init : Reachable initialRegistry
  | add {r : Registry} (h : Reachable r) : Reachable (addStudy r)
  | remove {r : Registry} (id : Nat) (h : Reachable r) : Reachable (removeStudy r id)
  | select {r : Registry} (study : Study) (h : Reachable r) (hmem : study ∈ r.studies) :
      Reachable (setCurrentStudy r study.id)

/-- The selection invariant: the selection is `null` or the id of a listed
study. -/
def SelectionValid (r : Registry) : Prop :=
  r.currentStudy = none ∨ ∃ study ∈ r.studies, r.currentStudy = some study.id

/-! ## Helper lemmas on rounding -/

theorem roundHalfEven_spec (y : ℚ) :
    (roundHalfEven y = ⌊y⌋ ∧ y - ⌊y⌋ ≤ 1 / 2) ∨
      (roundHalfEven y = ⌊y⌋ + 1 ∧ 1 / 2 ≤ y - ⌊y⌋) := by
  unfold roundHalfEven
  by_cases h1 : y - ⌊y⌋ < 1 / 2
  · left; rw [if_pos h1]; exact ⟨rfl, le_of_lt h1⟩
  · rw [if_neg h1]
    by_cases h2 : 1 / 2 < y - ⌊y⌋
    · right; rw [if_pos h2]; exact ⟨rfl, le_of_lt h2⟩
    · rw [if_neg h2]
      have he : y - ⌊y⌋ = 1 / 2 := le_antisymm (not_lt.1 h2) (not_lt.1 h1)
      by_cases h3 : ⌊y⌋ % 2 = 0
      · left; rw [if_pos h3]; exact ⟨rfl, le_of_eq he⟩
      · right; rw [if_neg h3]; exact ⟨rfl, le_of_eq he.symm⟩

theorem abs_roundHalfEven_sub_le (y : ℚ) : |(roundHalfEven y : ℚ) - y| ≤ 1 / 2 := by
  have hf := Int.floor_le y
  have hc := Int.lt_floor_add_one y
  rw [abs_le]
  rcases roundHalfEven_spec y with ⟨h, hb⟩ | ⟨h, hb⟩
  · rw [h]; constructor <;> linarith
  · rw [h]; push_cast; constructor <;> linarith

theorem le_roundHalfEven (N : ℤ) (y : ℚ) (h : (N : ℚ) ≤ y) : N ≤ roundHalfEven y := by
  have hN : N ≤ ⌊y⌋ := Int.le_floor.2 h
  rcases roundHalfEven_spec y with ⟨hr, _⟩ | ⟨hr, _⟩ <;> rw [hr] <;> omega

theorem roundHalfEven_le (N : ℤ) (y : ℚ) (h : y ≤ (N : ℚ)) : roundHalfEven y ≤ N := by
  rcases roundHalfEven_spec y with ⟨hr, _⟩ | ⟨hr, hb⟩
  · rw [hr]
    exact_mod_cast (Int.floor_le y).trans h
  · rw [hr]
    have hlt : (⌊y⌋ : ℚ) < N := by linarith
    have : ⌊y⌋ < N := by exact_mod_cast hlt
    omega

theorem roundHalfEven_of_lt_half (y : ℚ) (f : ℤ) (h1 : (f : ℚ) ≤ y) (h2 : y - f < 1 / 2) :
    roundHalfEven y = f := by
  have hf : ⌊y⌋ = f := Int.floor_eq_iff.2 ⟨h1, by linarith⟩
  unfold roundHalfEven
  rw [hf, if_pos h2]

theorem roundHalfEven_of_half_lt (y : ℚ) (f : ℤ) (h1 : 1 / 2 < y - f) (h2 : y < f + 1) :
    roundHalfEven y = f + 1 := by
  have hf : ⌊y⌋ = f := Int.floor_eq_iff.2 ⟨by linarith, h2⟩
  unfold roundHalfEven
  rw [hf, if_neg (not_lt.2 (le_of_lt h1)), if_pos h1]

theorem two_zpow_pos (k : ℤ) : (0 : ℚ) < 2 ^ k :=
  zpow_pos (by norm_num) k

theorem two_zpow_mono {a b : ℤ} (h : a ≤ b) : (2 : ℚ) ^ a ≤ 2 ^ b :=
  zpow_le_zpow_right₀ (by norm_num) h

theorem log_le_of_lt_zpow {x : ℚ} (hx : 0 < x) {k : ℤ} (h : x < 2 ^ (k + 1)) :
    Int.log 2 x ≤ k := by
  have h2 : x < ((2 : ℕ) : ℚ) ^ (k + 1) := by simpa using h
  have := (Int.lt_zpow_iff_log_lt (by norm_num : 1 < 2) hx).1 h2
  omega

theorem le_log_of_zpow_le {x : ℚ} (hx : 0 < x) {k : ℤ} (h : 2 ^ k ≤ x) :
    k ≤ Int.log 2 x := by
  have h2 : ((2 : ℕ) : ℚ) ^ k ≤ x := by simpa using h
  exact (Int.zpow_le_iff_le_log (by norm_num : 1 < 2) hx).1 h2

theorem two_zpow_log_le {x : ℚ} (hx : 0 < x) : (2 : ℚ) ^ Int.log 2 x ≤ x := by
  have := Int.zpow_log_le_self (by norm_num : 1 < 2) hx
  simpa using this

theorem binExp_le {x : ℚ} (hx : x ≠ 0) {k : ℤ} (hk : -1022 ≤ k) (h : |x| < 2 ^ (k + 1)) :
    binExp x ≤ k := by
  unfold binExp
  exact max_le (log_le_of_lt_zpow (abs_pos.2 hx) h) hk

theorem binExp_eq {x : ℚ} (hx : 0 < x) {e : ℤ} (he : -1022 ≤ e) (hlo : 2 ^ e ≤ x)
    (hhi : x < 2 ^ (e + 1)) : binExp x = e := by
  unfold binExp
  rw [abs_of_pos hx]
  have h1 := log_le_of_lt_zpow hx hhi
  have h2 := le_log_of_zpow_le hx hlo
  have : Int.log 2 x = e := le_antisymm h1 h2
  rw [this]
  exact max_eq_left he

theorem fl_zero : fl 0 = 0 := by
  simp [fl]

theorem fl_of_ne_zero {x : ℚ} (hx : x ≠ 0) :
    fl x = (roundHalfEven (x / 2 ^ (binExp x - 52)) : ℚ) * 2 ^ (binExp x - 52) := by
  simp [fl, hx]

/-- A multiple `M * 2 ^ k` of a power of two at least the spacing at `x` is a
multiple of that spacing. -/
theorem grid_multiple (x : ℚ) (M k : ℤ) (hk : binExp x - 52 ≤ k) :
    ∃ N : ℤ, (M : ℚ) * 2 ^ k = (N : ℚ) * 2 ^ (binExp x - 52) := by
  refine ⟨M * 2 ^ (k - (binExp x - 52)).toNat, ?_⟩
  have hd : ((k - (binExp x - 52)).toNat : ℤ) = k - (binExp x - 52) :=
    Int.toNat_of_nonneg (by omega)
  have h2 : (2 : ℚ) ^ k = 2 ^ ((k - (binExp x - 52)).toNat : ℤ) * 2 ^ (binExp x - 52) := by
    rw [← zpow_add₀ (by norm_num : (2 : ℚ) ≠ 0), hd]
    congr 1
    ring
  rw [h2, zpow_natCast]
  push_cast
  ring

theorem fl_le_of_le_grid {x : ℚ} (M k : ℤ) (hk : binExp x - 52 ≤ k)
    (h : x ≤ (M : ℚ) * 2 ^ k) : fl x ≤ (M : ℚ) * 2 ^ k := by
  by_cases hx : x = 0
  · rw [hx, fl_zero]; rw [hx] at h; exact h
  · obtain ⟨N, hN⟩ := grid_multiple x M k hk
    have hu := two_zpow_pos (binExp x - 52)
    rw [fl_of_ne_zero hx, hN]
    rw [hN] at h
    have hy : x / 2 ^ (binExp x - 52) ≤ (N : ℚ) := (div_le_iff₀ hu).2 h
    have hr := roundHalfEven_le N _ hy
    have hr' : (roundHalfEven (x / 2 ^ (binExp x - 52)) : ℚ) ≤ (N : ℚ) := by exact_mod_cast hr
    exact mul_le_mul_of_nonneg_right hr' (le_of_lt hu)

theorem le_fl_of_grid_le {x : ℚ} (M k : ℤ) (hk : binExp x - 52 ≤ k)
    (h : (M : ℚ) * 2 ^ k ≤ x) : (M : ℚ) * 2 ^ k ≤ fl x := by
  by_cases hx : x = 0
  · rw [hx, fl_zero]; rw [hx] at h; exact h
  · obtain ⟨N, hN⟩ := grid_multiple x M k hk
    have hu := two_zpow_pos (binExp x - 52)
    rw [fl_of_ne_zero hx, hN]
    rw [hN] at h
    have hy : (N : ℚ) ≤ x / 2 ^ (binExp x - 52) := (le_div_iff₀ hu).2 h
    have hr := le_roundHalfEven N _ hy
    have hr' : (N : ℚ) ≤ (roundHalfEven (x / 2 ^ (binExp x - 52)) : ℚ) := by exact_mod_cast hr
    exact mul_le_mul_of_nonneg_right hr' (le_of_lt hu)

theorem abs_fl_sub_le (x : ℚ) : |fl x - x| ≤ 2 ^ (binExp x - 53) := by
  by_cases hx : x = 0
  · rw [hx, fl_zero]; simpa using le_of_lt (two_zpow_pos _)
  · have hu := two_zpow_pos (binExp x - 52)
    have hsplit : (2 : ℚ) ^ (binExp x - 52) = 2 * 2 ^ (binExp x - 53) := by
      have : binExp x - 52 = 1 + (binExp x - 53) := by ring
      rw [this, zpow_add₀ (by norm_num : (2 : ℚ) ≠ 0), zpow_one]
    have herr := abs_roundHalfEven_sub_le (x / 2 ^ (binExp x - 52))
    have heq : fl x - x
        = ((roundHalfEven (x / 2 ^ (binExp x - 52)) : ℚ) - x / 2 ^ (binExp x - 52))
          * 2 ^ (binExp x - 52) := by
      rw [fl_of_ne_zero hx, sub_mul, div_mul_cancel₀ _ (ne_of_gt hu)]
    rw [heq, abs_mul, abs_of_pos hu]
    calc |(roundHalfEven (x / 2 ^ (binExp x - 52)) : ℚ) - x / 2 ^ (binExp x - 52)|
          * 2 ^ (binExp x - 52)
        ≤ 1 / 2 * 2 ^ (binExp x - 52) := mul_le_mul_of_nonneg_right herr (le_of_lt hu)
      _ = 2 ^ (binExp x - 53) := by rw [hsplit]; ring

theorem fl_nonneg {x : ℚ} (h : 0 ≤ x) : 0 ≤ fl x := by
  have := le_fl_of_grid_le (x := x) 0 (binExp x - 52) le_rfl (by simpa using h)
  simpa using this

theorem fl_nonpos {x : ℚ} (h : x ≤ 0) : fl x ≤ 0 := by
  have := fl_le_of_le_grid (x := x) 0 (binExp x - 52) le_rfl (by simpa using h)
  simpa using this

/-- Rounding never crosses an integer below `2 ^ 53` from below. -/
theorem fl_le_int {x : ℚ} (M : ℤ) (hexp : binExp x ≤ 52) (h : x ≤ (M : ℚ)) :
    fl x ≤ (M : ℚ) := by
  have := fl_le_of_le_grid (x := x) M 0 (by omega) (by simpa using h)
  simpa using this

theorem fl_eq_of {x : ℚ} (hx : 0 < x) (e m : ℤ) (he : -1022 ≤ e) (hlo : 2 ^ e ≤ x)
    (hhi : x < 2 ^ (e + 1)) (hm : roundHalfEven (x / 2 ^ (e - 52)) = m) :
    fl x = (m : ℚ) * 2 ^ (e - 52) := by
  rw [fl_of_ne_zero (ne_of_gt hx), binExp_eq hx he hlo hhi, hm]


theorem binExp_le_of_abs_lt (x : ℚ) {k : ℤ} (hk : 0 ≤ k) (h : |x| < 2 ^ (k + 1)) :
    binExp x ≤ k := by
  by_cases hx : x = 0
  · subst hx
    simp only [binExp, abs_zero, Int.log_zero_right]
    omega
  · exact binExp_le hx (by omega) h

theorem fl_one : fl 1 = 1 := by
  have h := fl_eq_of (x := 1) (by norm_num) 0 (2 ^ 52) (by norm_num) (by norm_num)
    (by norm_num) (roundHalfEven_of_lt_half _ _ (by norm_num) (by norm_num))
  rw [h]; norm_num

theorem fl_half : fl (1 / 2) = 1 / 2 := by
  have h := fl_eq_of (x := 1 / 2) (by norm_num) (-1) (2 ^ 52) (by norm_num) (by norm_num)
    (by norm_num) (roundHalfEven_of_lt_half _ _ (by norm_num) (by norm_num))
  rw [h]; norm_num

theorem fl_fifty : fl 50 = 50 := by
  have h := fl_eq_of (x := 50) (by norm_num) 5 (50 * 2 ^ 47) (by norm_num) (by norm_num)
    (by norm_num) (roundHalfEven_of_lt_half _ _ (by norm_num) (by norm_num))
  rw [h]; norm_num

theorem fl_hundred : fl 100 = 100 := by
  have h := fl_eq_of (x := 100) (by norm_num) 6 (100 * 2 ^ 46) (by norm_num) (by norm_num)
    (by norm_num) (roundHalfEven_of_lt_half _ _ (by norm_num) (by norm_num))
  rw [h]; norm_num

theorem fl_third : fl (1 / 3) = 6004799503160661 / 2 ^ 54 := by
  have h := fl_eq_of (x := 1 / 3) (by norm_num) (-2) 6004799503160661 (by norm_num)
    (by norm_num) (by norm_num) (roundHalfEven_of_lt_half _ _ (by norm_num) (by norm_num))
  rw [h]; norm_num

theorem fl_two_thirds : fl (2 / 3) = 6004799503160661 / 2 ^ 53 := by
  have h := fl_eq_of (x := 2 / 3) (by norm_num) (-1) 6004799503160661 (by norm_num)
    (by norm_num) (by norm_num) (roundHalfEven_of_lt_half _ _ (by norm_num) (by norm_num))
  rw [h]; norm_num

theorem fl_third_times_100 :
    fl (6004799503160661 / 2 ^ 54 * 100) = 2345624805922133 / 2 ^ 46 := by
  have h := fl_eq_of (x := 6004799503160661 / 2 ^ 54 * 100) (by norm_num) 5 4691249611844266
    (by norm_num) (by norm_num) (by norm_num)
    (roundHalfEven_of_lt_half _ _ (by norm_num) (by norm_num))
  rw [h]; norm_num

theorem fl_two_thirds_times_100 :
    fl (6004799503160661 / 2 ^ 53 * 100) = 2345624805922133 / 2 ^ 45 := by
  have h := fl_eq_of (x := 6004799503160661 / 2 ^ 53 * 100) (by norm_num) 6 4691249611844266
    (by norm_num) (by norm_num) (by norm_num)
    (roundHalfEven_of_lt_half _ _ (by norm_num) (by norm_num))
  rw [h]; norm_num

theorem ofRat_of_bounded {x : ℚ} (h0 : 0 ≤ fl x) (h1 : fl x ≤ 100) :
    JSNum.ofRat x = JSNum.fin (fl x) := by
  unfold JSNum.ofRat
  rw [if_neg (by
    have : (100 : ℚ) < 2 ^ 1024 := by norm_num
    exact not_le.2 (by linarith))]
  rw [if_neg (by
    have : (0 : ℚ) < 2 ^ 1024 := by norm_num
    exact not_le.2 (by linarith))]

theorem ofRat_gt_iff (x c : ℚ) (hc1 : -(2 ^ 1024) ≤ c) (hc2 : c < 2 ^ 1024) :
    (JSNum.ofRat x).gt c = true ↔ c < fl x := by
  unfold JSNum.ofRat
  by_cases h1 : (2 : ℚ) ^ 1024 ≤ fl x
  · rw [if_pos h1]
    simp only [JSNum.gt, true_iff]
    linarith
  · rw [if_neg h1]
    by_cases h2 : fl x ≤ -(2 ^ 1024)
    · rw [if_pos h2]
      simp only [JSNum.gt, false_iff, not_lt, Bool.false_eq_true]
      linarith
    · rw [if_neg h2]
      simp [JSNum.gt]

theorem fl_le_half {x : ℚ} (h : x ≤ 1 / 2) : fl x ≤ 1 / 2 := by
  by_cases h0 : x ≤ 0
  · have := fl_nonpos h0
    linarith
  · have hpos : 0 < x := not_le.1 h0
    have he : binExp x ≤ -1 :=
      binExp_le (ne_of_gt hpos) (by norm_num) (by rw [abs_of_pos hpos]; norm_num; linarith)
    have := fl_le_of_le_grid (x := x) 1 (-1) (by omega) (by norm_num; linarith)
    norm_num at this
    linarith

theorem half_lt_fl {x : ℚ} (h : 1 / 2 + 1 / 2 ^ 53 ≤ x) : 1 / 2 < fl x := by
  have hpos : 0 < x := by
    have : (0 : ℚ) < 1 / 2 ^ 53 := by norm_num
    linarith
  by_cases h1 : x < 1
  · have he : binExp x ≤ -1 :=
      binExp_le (ne_of_gt hpos) (by norm_num) (by rw [abs_of_pos hpos]; norm_num; linarith)
    have := le_fl_of_grid_le (x := x) (2 ^ 52 + 1) (-53) (by omega) (by norm_num; linarith)
    norm_num at this
    have h3 : (1 : ℚ) / 2 < 4503599627370497 / 9007199254740992 := by norm_num
    linarith
  · have h1' : (1 : ℚ) ≤ x := not_lt.1 h1
    have hlog : 0 ≤ Int.log 2 x := le_log_of_zpow_le hpos (by simpa using h1')
    have hb : binExp x = Int.log 2 x := by
      unfold binExp
      rw [abs_of_pos hpos]
      exact max_eq_left (by omega)
    have hgrid : ((2 ^ 52 : ℤ) : ℚ) * 2 ^ (binExp x - 52) = 2 ^ Int.log 2 x := by
      have h52 : ((2 ^ 52 : ℤ) : ℚ) = (2 : ℚ) ^ (52 : ℤ) := by norm_num
      rw [hb, h52, ← zpow_add₀ (by norm_num : (2 : ℚ) ≠ 0)]
      congr 1
      ring
    have := le_fl_of_grid_le (x := x) (2 ^ 52) (binExp x - 52) le_rfl
      (by rw [hgrid]; exact two_zpow_log_le hpos)
    rw [hgrid] at this
    have h2 : (1 : ℚ) ≤ 2 ^ Int.log 2 x := by
      have := two_zpow_mono hlog
      simpa using this
    linarith

/-- For a quotient of an integer by a length below `2 ^ 53`, rounding does
not change the side of `1 / 2` the quotient is on. -/
theorem half_lt_fl_div_iff (s : ℤ) (n : ℕ) (hn : 0 < n) (hn2 : n ≤ 2 ^ 52) :
    1 / 2 < fl ((s : ℚ) / (n : ℚ)) ↔ 1 / 2 < (s : ℚ) / (n : ℚ) := by
  have hnq : (0 : ℚ) < n := by exact_mod_cast hn
  constructor
  · intro h
    by_contra hc
    have := fl_le_half (not_lt.1 hc)
    linarith
  · intro h
    apply half_lt_fl
    have h2 : (n : ℚ) < 2 * s := by
      have := (lt_div_iff₀ hnq).1 h
      linarith
    have h3 : (n : ℤ) < 2 * s := by exact_mod_cast h2
    have h4 : (n : ℤ) + 1 ≤ 2 * s := by omega
    have h5 : (n : ℚ) + 1 ≤ 2 * s := by exact_mod_cast h4
    have h6 : (n : ℚ) ≤ 2 ^ 52 := by exact_mod_cast hn2
    rw [le_div_iff₀ hnq]
    have h7 : (1 : ℚ) / 2 ^ 53 * n ≤ 1 / 2 := by
      have : (1 : ℚ) / 2 ^ 53 * n ≤ 1 / 2 ^ 53 * 2 ^ 52 :=
        mul_le_mul_of_nonneg_left h6 (by norm_num)
      have h8 : (1 : ℚ) / 2 ^ 53 * 2 ^ 52 = 1 / 2 := by norm_num
      linarith
    linarith


theorem roundHalfEven_of_tie_even (y : ℚ) (f : ℤ) (h : y - f = 1 / 2) (hf : f % 2 = 0) :
    roundHalfEven y = f := by
  have hfl : ⌊y⌋ = f := Int.floor_eq_iff.2 ⟨by linarith, by linarith⟩
  unfold roundHalfEven
  rw [hfl, if_neg (by rw [h]; exact lt_irrefl _), if_neg (by rw [h]; exact lt_irrefl _),
    if_pos hf]

theorem ofRat_of_abs_lt {x : ℚ} (h : |fl x| < 2 ^ 1024) : JSNum.ofRat x = JSNum.fin (fl x) := by
  have h2 := abs_lt.1 h
  unfold JSNum.ofRat
  rw [if_neg (not_le.2 h2.2), if_neg (not_le.2 h2.1)]

/-- Every integer of magnitude at most `2 ^ 53` is a binary64 value. -/
theorem fl_int_exact (n : ℤ) (h : |n| ≤ 2 ^ 53) : fl (n : ℚ) = (n : ℚ) := by
  have hq : |(n : ℚ)| ≤ 2 ^ 53 := by exact_mod_cast h
  by_cases hlt : |n| < 2 ^ 53
  · have hqlt : |(n : ℚ)| < 2 ^ 53 := by exact_mod_cast hlt
    have hb : binExp (n : ℚ) ≤ 52 :=
      binExp_le_of_abs_lt _ (by norm_num) (by norm_num; exact hqlt)
    have h1 := fl_le_int (x := (n : ℚ)) n hb le_rfl
    have h2 := le_fl_of_grid_le (x := (n : ℚ)) n 0 (by omega) (by simp)
    simp only [zpow_zero, mul_one] at h2
    exact le_antisymm h1 h2
  · have heq : |n| = 2 ^ 53 := le_antisymm h (not_lt.1 hlt)
    have hb : binExp (n : ℚ) ≤ 53 :=
      binExp_le_of_abs_lt _ (by norm_num) (by
        have : (2 : ℚ) ^ 53 < 2 ^ ((53 : ℤ) + 1) := by norm_num
        exact lt_of_le_of_lt hq this)
    have hM : ∃ M : ℤ, (M : ℚ) * 2 ^ (1 : ℤ) = (n : ℚ) := by
      rcases abs_eq (by norm_num : (0 : ℤ) ≤ 2 ^ 53) |>.1 heq with hn | hn
      · exact ⟨2 ^ 52, by rw [hn]; norm_num⟩
      · exact ⟨-2 ^ 52, by rw [hn]; norm_num⟩
    obtain ⟨M, hM⟩ := hM
    have h1 := fl_le_of_le_grid (x := (n : ℚ)) M 1 (by omega) (le_of_eq hM.symm)
    have h2 := le_fl_of_grid_le (x := (n : ℚ)) M 1 (by omega) (le_of_eq hM)
    rw [hM] at h1 h2
    exact le_antisymm h1 h2

theorem ofRat_int (n : ℤ) (h : n.natAbs ≤ 2 ^ 53) : JSNum.ofRat (n : ℚ) = JSNum.fin (n : ℚ) := by
  have habs : |n| ≤ 2 ^ 53 := by
    rw [Int.abs_eq_natAbs]
    exact_mod_cast h
  have hfl := fl_int_exact n habs
  have hq : |(n : ℚ)| ≤ 2 ^ 53 := by exact_mod_cast habs
  rw [ofRat_of_abs_lt (by
    rw [hfl]
    have : (2 : ℚ) ^ 53 < 2 ^ 1024 := by norm_num
    exact lt_of_le_of_lt hq this), hfl]

/-! ## Helper lemmas on sums -/

theorem absTotal_cons (b : Int) (t : List Int) : absTotal (b :: t) = b.natAbs + absTotal t := by
  simp [absTotal]

theorem absTotal_append (l₁ l₂ : List Int) :
    absTotal (l₁ ++ l₂) = absTotal l₁ + absTotal l₂ := by
  simp [absTotal]

theorem natAbs_sum_le (l : List Int) : l.sum.natAbs ≤ absTotal l := by
  induction l with
  | nil => simp [absTotal]
  | cons b t ih =>
    rw [List.sum_cons, absTotal_cons]
    exact (Int.natAbs_add_le b t.sum).trans (by omega)

theorem absTotal_of_nonneg (l : List Int) (h : ∀ x ∈ l, 0 ≤ x) : (absTotal l : Int) = l.sum := by
  induction l with
  | nil => simp [absTotal]
  | cons b t ih =>
    have hb := h b (List.mem_cons_self _ _)
    have ht := ih (fun x hx => h x (List.mem_cons_of_mem _ hx))
    rw [absTotal_cons, List.sum_cons]
    push_cast
    rw [ht, abs_of_nonneg hb]

theorem add_fin_int (a b : Int) (h : (a + b).natAbs ≤ 2 ^ 53) :
    JSNum.add (JSNum.fin (a : ℚ)) (JSNum.fin (b : ℚ)) = JSNum.fin ((a + b : Int) : ℚ) := by
  have := ofRat_int (a + b) h
  simp only [JSNum.add]
  rw [← this]
  push_cast
  rfl

/-- A `reduce` with `+` over integers is exact as long as the absolute values
of the start value and the entries add up to at most `2 ^ 53`. -/
theorem foldl_addScore_exact (l : List Int) (a : Int) (h : a.natAbs + absTotal l ≤ 2 ^ 53) :
    l.foldl addScore (JSNum.fin (a : ℚ)) = JSNum.fin ((a + l.sum : Int) : ℚ) := by
  induction l generalizing a with
  | nil => simp
  | cons b t ih =>
    rw [absTotal_cons] at h
    have hab : (a + b).natAbs ≤ a.natAbs + b.natAbs := Int.natAbs_add_le a b
    have hstep : addScore (JSNum.fin (a : ℚ)) b = JSNum.fin ((a + b : Int) : ℚ) :=
      add_fin_int a b (by omega)
    rw [List.foldl_cons, hstep, ih (a + b) (by omega), List.sum_cons, add_assoc]

theorem foldl_add_fin_exact (l : List Int) (a : Int) (h : a.natAbs + absTotal l ≤ 2 ^ 53) :
    (l.map (fun (d : Int) => JSNum.fin (d : ℚ))).foldl JSNum.add (JSNum.fin (a : ℚ))
      = JSNum.fin ((a + l.sum : Int) : ℚ) := by
  induction l generalizing a with
  | nil => simp
  | cons b t ih =>
    rw [absTotal_cons] at h
    have hab : (a + b).natAbs ≤ a.natAbs + b.natAbs := Int.natAbs_add_le a b
    rw [List.map_cons, List.foldl_cons, add_fin_int a b (by omega), ih (a + b) (by omega),
      List.sum_cons, add_assoc]

theorem domainSum_exact (arr : List Slot) (h : absTotal (present arr) ≤ 2 ^ 53) :
    domainSum arr = JSNum.fin (((present arr).sum : Int) : ℚ) := by
  have := foldl_addScore_exact (present arr) 0 (by simpa using h)
  simpa [domainSum] using this

theorem sum_flatMap_present (scores : ScoreSet) :
    ((scores.map Prod.snd).flatMap present).sum
      = (scores.map (fun entry => (present entry.2).sum)).sum := by
  induction scores with
  | nil => simp
  | cons e t ih => simp only [List.map_cons, List.flatMap_cons, List.sum_append, List.sum_cons, ih]

theorem absTotal_flatMap_present (scores : ScoreSet) :
    absTotal ((scores.map Prod.snd).flatMap present)
      = (scores.map (fun entry => absTotal (present entry.2))).sum := by
  induction scores with
  | nil => simp [absTotal]
  | cons e t ih =>
    simp only [List.map_cons, List.flatMap_cons, absTotal_append, List.sum_cons, ih]

theorem absTotal_present_le (scores : ScoreSet) (entry : String × List Slot)
    (he : entry ∈ scores) :
    absTotal (present entry.2) ≤ absTotal ((scores.map Prod.snd).flatMap present) := by
  rw [absTotal_flatMap_present]
  exact List.single_le_sum (by simp) _ (List.mem_map.2 ⟨entry, he, rfl⟩)

theorem absTotal_domain_sums_le (scores : ScoreSet) :
    absTotal (scores.map (fun entry => (present entry.2).sum))
      ≤ absTotal ((scores.map Prod.snd).flatMap present) := by
  rw [absTotal_flatMap_present]
  induction scores with
  | nil => simp [absTotal]
  | cons e t ih =>
    simp only [List.map_cons, absTotal_cons, List.sum_cons]
    have := natAbs_sum_le (present e.2)
    omega

theorem totalScore_exact (scores : ScoreSet)
    (h : absTotal ((scores.map Prod.snd).flatMap present) ≤ 2 ^ 53) :
    totalScore scores
      = JSNum.fin (((scores.map (fun entry => (present entry.2).sum)).sum : Int) : ℚ) := by
  have := foldl_addScore_exact ((scores.map Prod.snd).flatMap present) 0 (by simpa using h)
  rw [sum_flatMap_present] at this
  simpa [totalScore] using this

/-! ## Helper lemmas on the total score -/

theorem fl_two53_succ : fl (9007199254740992 + 1) = 9007199254740992 := by
  have h := fl_eq_of (x := 9007199254740992 + 1) (by norm_num) 53 (2 ^ 52) (by norm_num)
    (by norm_num) (by norm_num)
    (roundHalfEven_of_tie_even _ _ (by norm_num) (by norm_num))
  rw [h]; norm_num

theorem fl_two53_add_two : fl (9007199254740992 + 2) = 9007199254740994 := by
  have h := fl_eq_of (x := 9007199254740992 + 2) (by norm_num) 53 (2 ^ 52 + 1) (by norm_num)
    (by norm_num) (by norm_num)
    (roundHalfEven_of_lt_half _ _ (by norm_num) (by norm_num))
  rw [h]; norm_num

theorem addScore_two53_one :
    addScore (JSNum.fin 9007199254740992) 1 = JSNum.fin 9007199254740992 := by
  have h : JSNum.ofRat (9007199254740992 + 1) = JSNum.fin 9007199254740992 := by
    rw [ofRat_of_abs_lt (by rw [fl_two53_succ]; norm_num), fl_two53_succ]
  simp only [addScore, JSNum.add]
  rw [← h]
  norm_num

theorem addScore_zero_two53 :
    addScore (JSNum.fin 0) 9007199254740992 = JSNum.fin 9007199254740992 := by
  have := add_fin_int 0 9007199254740992 (by decide)
  simpa [addScore] using this

theorem totalScore_two_domains (n a b : Int) :
    totalScore [("selection", [some n]), ("comparability", [some a, some b])]
      = addScore (addScore (addScore (JSNum.fin 0) n) a) b := rfl

theorem domainSums_two_domains (n a b : Int) :
    ([("selection", [some n]), ("comparability", [some a, some b])].map
        (fun (entry : String × List Slot) => domainSum entry.2)).foldl JSNum.add (JSNum.fin 0)
      = JSNum.add (JSNum.add (JSNum.fin 0) (domainSum [some n]))
          (domainSum [some a, some b]) := rfl

theorem domainSum_singleton (n : Int) :
    domainSum [some n] = addScore (JSNum.fin 0) n := rfl

theorem presentSum_cons_some (n : Int) (t : List Slot) :
    (present (some n :: t)).sum = n + (present t).sum := by
  simp [present]

theorem presentSum_bounds (m : Int) (arr : List Slot)
    (h : ∀ slot ∈ arr, ∃ n : Int, slot = some n ∧ 0 ≤ n ∧ n ≤ m) :
    0 ≤ (present arr).sum ∧ (present arr).sum ≤ (arr.length : Int) * m ∧
      ((present arr).sum = (arr.length : Int) * m ↔ ∀ slot ∈ arr, slot = some m) := by
  induction arr with
  | nil => simp [present]
  | cons s t ih =>
    obtain ⟨n, rfl, h0, h1⟩ := h s (List.mem_cons_self _ _)
    obtain ⟨i0, i1, i2⟩ := ih (fun slot hs => h slot (List.mem_cons_of_mem _ hs))
    rw [presentSum_cons_some]
    have hlen : (((some n :: t : List Slot).length : Nat) : Int) * m
        = m + (t.length : Int) * m := by
      simp only [List.length_cons]; push_cast; ring
    rw [hlen]
    refine ⟨by omega, by omega, ?_⟩
    constructor
    · intro he
      have hn : n = m := by omega
      have ht : (present t).sum = (t.length : Int) * m := by omega
      intro slot hs
      rcases List.mem_cons.1 hs with rfl | hs
      · rw [hn]
      · exact i2.1 ht slot hs
    · intro hall
      have hn : n = m := by
        have := hall (some n) (List.mem_cons_self _ _)
        simpa using this
      have ht := i2.2 (fun slot hs => hall slot (List.mem_cons_of_mem _ hs))
      omega

theorem mem_present {arr : List Slot} {x : Int} (h : x ∈ present arr) : some x ∈ arr := by
  simpa [present] using h

theorem sum_map_bounds {α : Type} (f g : α → Int) (l : List α)
    (h : ∀ e ∈ l, 0 ≤ f e ∧ f e ≤ g e) :
    0 ≤ (l.map f).sum ∧ (l.map f).sum ≤ (l.map g).sum ∧
      ((l.map f).sum = (l.map g).sum ↔ ∀ e ∈ l, f e = g e) := by
  induction l with
  | nil => simp
  | cons a t ih =>
    obtain ⟨h0, h1⟩ := h a (List.mem_cons_self _ _)
    obtain ⟨i0, i1, i2⟩ := ih (fun e he => h e (List.mem_cons_of_mem _ he))
    simp only [List.map_cons, List.sum_cons, List.mem_cons, forall_eq_or_imp]
    refine ⟨by omega, by omega, ?_⟩
    constructor
    · intro he
      have ha : f a = g a := by omega
      exact ⟨ha, i2.1 (by omega)⟩
    · rintro ⟨ha, ht⟩
      have := i2.2 ht
      omega

theorem weight_total (type : StudyType) :
    (((criteriaInfo type).map Prod.fst).map (weight type)).sum = 9 := by
  cases type <;> decide

theorem wellScored_initialScores (type : StudyType) : WellScored type (initialScores type) := by
  cases type
  · refine ⟨List.Perm.refl _, ?_⟩
    intro entry he
    simp only [initialScores, if_true, List.mem_cons, List.mem_singleton, List.not_mem_nil,
      or_false] at he
    rcases he with rfl | rfl | rfl
    · exact ⟨_, rfl, rfl, by simp [maxStars]⟩
    · exact ⟨_, rfl, rfl, by simp [maxStars]⟩
    · exact ⟨_, rfl, rfl, by simp [maxStars]⟩
  · refine ⟨List.Perm.refl _, ?_⟩
    intro entry he
    simp only [initialScores, reduceCtorEq, if_false, List.mem_cons, List.mem_singleton,
      List.not_mem_nil, or_false] at he
    rcases he with rfl | rfl | rfl
    · exact ⟨_, rfl, rfl, by simp [maxStars]⟩
    · exact ⟨_, rfl, rfl, by simp [maxStars]⟩
    · exact ⟨_, rfl, rfl, by simp [maxStars]⟩

/-! ## Claims on the scoring model -/

/-- C7: for both study types the initial score set has exactly the domains of
`criteriaInfo` for that type, each score array is as long as the domain's
criterion list, and every entry is 0. -/
theorem initialScores_matches_catalog (type : StudyType) :
    (initialScores type).map Prod.fst = (criteriaInfo type).map Prod.fst ∧
    (initialScores type).map (fun entry => entry.2.length)
      = (criteriaInfo type).map (fun info => info.2.length) ∧
    ∀ entry ∈ initialScores type, ∀ slot ∈ entry.2, slot = some 0 := by
  cases type <;> simp [initialScores, criteriaInfo]

/-- C8 (amended): for every score set whose entries' absolute values add up
to at most `2 ^ 53`, so that every binary64 addition is exact, the total score
equals the sum over the domains of each domain's own sum, and both are the
exact sum of all entries; for selection [1,1,1,1], comparability [2],
exposure [1,1,1] it is 9. -/
theorem totalScore_additive (scores : ScoreSet)
    (h : absTotal ((scores.map Prod.snd).flatMap present) ≤ 2 ^ 53) :
    totalScore scores
      = (scores.map (fun entry => domainSum entry.2)).foldl JSNum.add (JSNum.fin 0) ∧
    totalScore scores
      = JSNum.fin (((scores.map (fun entry => (present entry.2).sum)).sum : Int) : ℚ) ∧
    (∀ entry ∈ scores, domainSum entry.2 = JSNum.fin (((present entry.2).sum : Int) : ℚ)) ∧
    totalScore
      [("selection", [some 1, some 1, some 1, some 1]),
       ("comparability", [some 2]),
       ("exposure", [some 1, some 1, some 1])] = JSNum.fin 9 := by
  have hdom : ∀ entry ∈ scores,
      domainSum entry.2 = JSNum.fin (((present entry.2).sum : Int) : ℚ) :=
    fun entry he => domainSum_exact entry.2 ((absTotal_present_le scores entry he).trans h)
  have htot := totalScore_exact scores h
  refine ⟨?_, htot, hdom, ?_⟩
  · have hmap : scores.map (fun entry => domainSum entry.2)
        = (scores.map (fun entry => (present entry.2).sum)).map
            (fun (d : Int) => JSNum.fin (d : ℚ)) := by
      rw [List.map_map]
      exact List.map_congr_left hdom
    have hfold := foldl_add_fin_exact (scores.map (fun entry => (present entry.2).sum)) 0
      (by
        have := absTotal_domain_sums_le scores
        simp only [Int.natAbs_zero, zero_add]
        omega)
    rw [htot, hmap]
    simp only [Int.cast_zero, zero_add] at hfold
    exact hfold.symm
  · have := totalScore_exact
      [("selection", [some 1, some 1, some 1, some 1]),
       ("comparability", [some 2]),
       ("exposure", [some 1, some 1, some 1])] (by decide)
    have hs : ([("selection", [some 1, some 1, some 1, some 1]),
       ("comparability", [some 2]),
       ("exposure", [some 1, some 1, some 1])].map
        (fun (entry : String × List Slot) => (present entry.2).sum)).sum = (9 : Int) := by
      decide
    rw [this, hs]
    norm_num

/-- C8 (witness): the score set of the example. -/
theorem totalScore_additive_witness :
    absTotal (([("selection", [some 1, some 1, some 1, some 1]),
       ("comparability", [some 2]),
       ("exposure", [some 1, some 1, some 1])] : ScoreSet).map Prod.snd |>.flatMap present)
      ≤ 2 ^ 53 ∧
    totalScore
      [("selection", [some 1, some 1, some 1, some 1]),
       ("comparability", [some 2]),
       ("exposure", [some 1, some 1, some 1])] = JSNum.fin 9 :=
  ⟨by decide,
    (totalScore_additive
      [("selection", [some 1, some 1, some 1, some 1]),
       ("comparability", [some 2]),
       ("exposure", [some 1, some 1, some 1])] (by decide)).2.2.2⟩

/-- C8 (counterexample): for selection [2^53] and comparability [1, 1] the
total score is 2^53, because 2^53 + 1 rounds back to 2^53 twice, while the
domain sums 2^53 and 2 add up to 2^53 + 2. -/
theorem totalScore_not_additive :
    totalScore [("selection", [some 9007199254740992]), ("comparability", [some 1, some 1])]
      = JSNum.fin 9007199254740992 ∧
    domainSum [some 9007199254740992] = JSNum.fin 9007199254740992 ∧
    domainSum [some 1, some 1] = JSNum.fin 2 ∧
    ([("selection", [some 9007199254740992]), ("comparability", [some 1, some 1])].map
        (fun (entry : String × List Slot) => domainSum entry.2)).foldl JSNum.add (JSNum.fin 0)
      = JSNum.fin 9007199254740994 ∧
    (9007199254740992 : ℚ) ≠ 9007199254740994 := by
  have hflat := totalScore_two_domains 9007199254740992 1 1
  have hsel : domainSum [some 9007199254740992] = JSNum.fin 9007199254740992 := by
    rw [domainSum_singleton, addScore_zero_two53]
  have hcomp : domainSum [some 1, some 1] = JSNum.fin 2 := by
    have := domainSum_exact [some 1, some 1] (by decide)
    have hs : (present [some 1, some 1]).sum = (2 : Int) := by decide
    rw [this, hs]
    norm_num
  refine ⟨?_, hsel, hcomp, ?_, by norm_num⟩
  · rw [hflat, addScore_zero_two53, addScore_two53_one, addScore_two53_one]
  · rw [domainSums_two_domains, hsel, hcomp]
    have h0 : JSNum.add (JSNum.fin 0) (JSNum.fin 9007199254740992)
        = JSNum.fin 9007199254740992 := by
      have := addScore_zero_two53
      simpa [addScore] using this
    have h2 : JSNum.ofRat (9007199254740992 + 2) = JSNum.fin 9007199254740994 := by
      rw [ofRat_of_abs_lt (by rw [fl_two53_add_two]; norm_num), fl_two53_add_two]
    rw [h0]
    simp only [JSNum.add]
    exact h2

/-- C9: for both study types and every score set of the catalog's shape whose
entries lie between 0 and their domain's star count (2 for comparability, 1
otherwise), the total score is an integer between 0 and 9 and is 9 exactly
when every entry is at its domain's star count; the displayed denominator 9
is the sum over the catalog criteria of their star counts. -/
theorem totalScore_bounds (type : StudyType) (scores : ScoreSet)
    (h : WellScored type scores) :
    ∃ total : Int, totalScore scores = JSNum.fin (total : ℚ) ∧
      0 ≤ total ∧ total ≤ 9 ∧ (total = 9 ↔ AllAtMax scores) ∧ catalogMaxTotal type = 9 := by
  obtain ⟨hperm, hent⟩ := h
  have hw : (scores.map (fun entry => weight type entry.1)).sum = 9 := by
    have := (hperm.map (weight type)).sum_eq
    rw [weight_total, List.map_map] at this
    exact this
  have hb : ∀ entry ∈ scores, 0 ≤ (present entry.2).sum ∧
      (present entry.2).sum ≤ weight type entry.1 ∧
      ((present entry.2).sum = weight type entry.1 ↔
        ∀ slot ∈ entry.2, slot = some (maxStars entry.1)) := by
    intro entry he
    obtain ⟨criteria, hl, hlen, hr⟩ := hent entry he
    have := presentSum_bounds (maxStars entry.1) entry.2 hr
    simp only [weight, hl, ← hlen]
    exact this
  obtain ⟨s0, s1, s2⟩ := sum_map_bounds (fun entry => (present entry.2).sum)
    (fun entry => weight type entry.1) scores (fun e he => ⟨(hb e he).1, (hb e he).2.1⟩)
  rw [hw] at s1 s2
  have hnonneg : ∀ x ∈ (scores.map Prod.snd).flatMap present, 0 ≤ x := by
    intro x hx
    rw [List.mem_flatMap] at hx
    obtain ⟨arr, harr, hxa⟩ := hx
    obtain ⟨entry, he, rfl⟩ := List.mem_map.1 harr
    obtain ⟨criteria, _, _, hr⟩ := hent entry he
    obtain ⟨n, hn, h0, _⟩ := hr (some x) (mem_present hxa)
    rw [Option.some.injEq] at hn
    rw [hn]; exact h0
  have habs : absTotal ((scores.map Prod.snd).flatMap present) ≤ 2 ^ 53 := by
    have h1 := absTotal_of_nonneg _ hnonneg
    rw [sum_flatMap_present] at h1
    have h2 : (absTotal ((scores.map Prod.snd).flatMap present) : Int) ≤ 9 := by
      rw [h1]; exact s1
    have h3 : absTotal ((scores.map Prod.snd).flatMap present) ≤ 9 := by exact_mod_cast h2
    exact h3.trans (by norm_num)
  refine ⟨_, totalScore_exact scores habs, s0, s1, ?_, by cases type <;> decide⟩
  rw [s2]
  constructor
  · intro hh entry he
    exact (hb entry he).2.2.1 (hh entry he)
  · intro hh entry he
    exact (hb entry he).2.2.2 (hh entry he)

/-- C9 (witness): the initial score set of a cohort study. -/
theorem totalScore_bounds_witness :
    WellScored StudyType.cohort (initialScores StudyType.cohort) ∧
    ∃ total : Int, totalScore (initialScores StudyType.cohort) = JSNum.fin (total : ℚ) ∧
      0 ≤ total ∧ total ≤ 9 ∧ (total = 9 ↔ AllAtMax (initialScores StudyType.cohort)) ∧
      catalogMaxTotal StudyType.cohort = 9 :=
  ⟨wellScored_initialScores StudyType.cohort,
    totalScore_bounds StudyType.cohort (initialScores StudyType.cohort)
      (wellScored_initialScores StudyType.cohort)⟩

/-! ## Helper lemmas on the score object -/

theorem arraySet_length (arr : List Slot) (index : ArrayIndex) (value : Int) :
    (arraySet arr index value).length = max arr.length (index.val + 1) := by
  unfold arraySet
  generalize index.val = index
  split
  · rw [List.length_set]; omega
  · simp only [List.length_append, List.length_replicate, List.length_singleton]; omega

theorem arrayGet_arraySet_self (arr : List Slot) (index : ArrayIndex) (value : Int) :
    arrayGet (arraySet arr index value) index.val = some value := by
  unfold arrayGet arraySet
  generalize index.val = index
  split
  · rename_i h
    simp [List.getD_eq_getElem?_getD, List.getElem?_set, h]
  · rename_i h
    have hlen : (arr ++ List.replicate (index - arr.length) none).length = index := by
      simp only [List.length_append, List.length_replicate]; omega
    rw [List.getD_eq_getElem?_getD, List.getElem?_append_right (by omega), hlen]
    simp

theorem arrayGet_arraySet_other (arr : List Slot) (index : ArrayIndex) (j : Nat)
    (value : Int) (hj : j ≠ index.val) :
    arrayGet (arraySet arr index value) j = arrayGet arr j := by
  unfold arrayGet arraySet
  revert hj
  generalize index.val = index
  intro hj
  split
  · simp [List.getD_eq_getElem?_getD, List.getElem?_set, Ne.symm hj]
  · rename_i h
    simp only [List.getD_eq_getElem?_getD]
    by_cases h1 : j < arr.length
    · rw [List.append_assoc, List.getElem?_append_left h1]
    · have h2 : arr[j]? = none := List.getElem?_eq_none (by omega)
      rw [h2]
      by_cases h3 : j < index
      · rw [List.getElem?_append_left (by
          simp only [List.length_append, List.length_replicate]; omega)]
        rw [List.getElem?_append_right (by omega)]
        rw [List.getElem?_replicate]
        split <;> rfl
      · rw [List.getElem?_eq_none (by
          simp only [List.length_append, List.length_replicate, List.length_singleton]; omega)]

theorem lookup_modifyKey_self (category : String) (f : List Slot → List Slot)
    (scores : ScoreSet) (arr : List Slot) (h : scores.lookup category = some arr) :
    (modifyKey category f scores).lookup category = some (f arr) := by
  induction scores with
  | nil => simp at h
  | cons entry rest ih =>
    obtain ⟨k, a⟩ := entry
    by_cases hk : k = category
    · subst hk
      simp only [List.lookup_cons, beq_self_eq_true] at h
      simp only [Option.some.injEq] at h
      simp [modifyKey, List.lookup_cons, h]
    · have hb : (category == k) = false := by
        simp only [beq_eq_false_iff_ne, ne_eq]; exact fun e => hk e.symm
      simp only [List.lookup_cons, hb] at h
      simp [modifyKey, hk, List.lookup_cons, hb, ih h]

theorem lookup_modifyKey_other (category d : String) (f : List Slot → List Slot)
    (scores : ScoreSet) (hd : d ≠ category) :
    (modifyKey category f scores).lookup d = scores.lookup d := by
  induction scores with
  | nil => simp [modifyKey]
  | cons entry rest ih =>
    obtain ⟨k, a⟩ := entry
    by_cases hk : k = category
    · subst hk
      have hb : (d == k) = false := by
        simp only [beq_eq_false_iff_ne, ne_eq]; exact hd
      simp [modifyKey, List.lookup_cons, hb]
    · simp only [modifyKey, hk, if_false, List.lookup_cons, ih]

theorem map_fst_modifyKey (category : String) (f : List Slot → List Slot)
    (scores : ScoreSet) :
    (modifyKey category f scores).map Prod.fst = scores.map Prod.fst := by
  induction scores with
  | nil => simp [modifyKey]
  | cons entry rest ih =>
    by_cases hk : entry.1 = category
    · simp [modifyKey, hk]
    · simp [modifyKey, hk, ih]

/-! ## Helper lemmas on the registry -/

theorem orNull_of_pos (n : Nat) (h : n ≠ 0) : orNull (some n) = some n := by
  cases n with
  | zero => exact absurd rfl h
  | succ k => rfl

theorem orNull_eq_some {v : Option Nat} {n : Nat} (h : orNull v = some n) : v = some n := by
  cases v with
  | none => simp [orNull] at h
  | some k =>
    cases k with
    | zero => simp [orNull] at h
    | succ j => simpa [orNull] using h

theorem selectionValid_addStudy (r : Registry) : SelectionValid (addStudy r) := by
  right
  refine ⟨Study.mk (r.studies.length + 1) StudyType.caseControl
      ("Study " ++ Nat.repr (r.studies.length + 1)) [], ?_, rfl⟩
  simp [addStudy]

theorem selectionValid_removeStudy (r : Registry) (id : Nat) (h : SelectionValid r) :
    SelectionValid (removeStudy r id) := by
  unfold SelectionValid removeStudy
  by_cases hc : r.currentStudy = some id
  · simp only [hc, if_true]
    cases hh : (r.studies.filter (fun study => study.id != id)).head? with
    | none => left; rfl
    | some s =>
      cases hn : orNull (Option.map Study.id (some s)) with
      | none => left; rfl
      | some n =>
        right
        have := orNull_eq_some hn
        simp only [Option.map_some', Option.some.injEq] at this
        refine ⟨s, List.mem_of_mem_head? hh, ?_⟩
        rw [this]
  · simp only [hc, if_false]
    rcases h with h | ⟨s, hs, he⟩
    · left; exact h
    · right
      refine ⟨s, ?_, he⟩
      rw [List.mem_filter]
      refine ⟨hs, ?_⟩
      have : s.id ≠ id := fun e => hc (by rw [he, e])
      simpa using this

theorem selectionValid_of_reachable {r : Registry} (h : Reachable r) : SelectionValid r := by
  induction h with
  | init => right; exact ⟨_, List.mem_singleton_self _, rfl⟩
  | add _ _ => exact selectionValid_addStudy _
  | remove id _ ih => exact selectionValid_removeStudy _ id ih
  | select study _ hmem _ => right; exact ⟨study, hmem, rfl⟩

/-! ## Claims on the scoring model, continued -/

/-- C5 (amended): `updateScore` makes no range check. For a score set that
has the domain, any array index (0 to `2 ^ 32 - 2`) and any value it
succeeds, and in the returned score set the entry at (domain, index) reads
`value`, every other position of the domain reads as before, every other
domain is unchanged and the keys are unchanged; a write past the end
lengthens the domain's array to `index + 1`. -/
theorem updateScore_replaces_entry (scores : ScoreSet) (category : String)
    (index : ArrayIndex) (value : Int) (arr : List Slot)
    (h : scores.lookup category = some arr) :
    ∃ newScores newArr, updateScore scores category index value = Except.ok newScores ∧
      newScores.lookup category = some newArr ∧
      arrayGet newArr index.val = some value ∧
      (∀ j, j ≠ index.val → arrayGet newArr j = arrayGet arr j) ∧
      newArr.length = max arr.length (index.val + 1) ∧
      (∀ d, d ≠ category → newScores.lookup d = scores.lookup d) ∧
      newScores.map Prod.fst = scores.map Prod.fst := by
  refine ⟨modifyKey category (fun a => arraySet a index value) scores,
    arraySet arr index value, ?_, ?_, ?_, ?_, ?_, ?_, ?_⟩
  · simp [updateScore, h]
  · exact lookup_modifyKey_self category _ scores arr h
  · exact arrayGet_arraySet_self arr index value
  · exact fun j hj => arrayGet_arraySet_other arr index j value hj
  · exact arraySet_length arr index value
  · exact fun d hd => lookup_modifyKey_other category d _ scores hd
  · exact map_fst_modifyKey category _ scores

/-- C5 (witness): a star click on the third selection criterion of a fresh
case-control score set. -/
theorem updateScore_replaces_entry_witness :
    ∃ newScores newArr,
      updateScore (initialScores StudyType.caseControl) "selection" 2 1 = Except.ok newScores ∧
      newScores.lookup "selection" = some newArr ∧
      arrayGet newArr 2 = some 1 ∧
      (∀ j, j ≠ 2 → arrayGet newArr j = arrayGet [some 0, some 0, some 0, some 0] j) ∧
      newArr.length = max [some (0 : Int), some 0, some 0, some 0].length (2 + 1) ∧
      (∀ d, d ≠ "selection" →
        newScores.lookup d = (initialScores StudyType.caseControl).lookup d) ∧
      newScores.map Prod.fst = (initialScores StudyType.caseControl).map Prod.fst :=
  updateScore_replaces_entry (initialScores StudyType.caseControl) "selection" 2 1
    [some 0, some 0, some 0, some 0] (by decide)

/-- C5 (counterexample): a value above the star count and an index past the
criterion count are both accepted; no error is returned and the score set
changes. -/
theorem updateScore_accepts_out_of_range :
    maxStars "comparability" < 5 ∧
    updateScore (initialScores StudyType.caseControl) "comparability" 0 5 =
      Except.ok
        [("selection", [some 0, some 0, some 0, some 0]),
         ("comparability", [some 5]),
         ("exposure", [some 0, some 0, some 0])] ∧
    updateScore (initialScores StudyType.caseControl) "selection" 7 1 =
      Except.ok
        [("selection", [some 0, some 0, some 0, some 0, none, none, none, some 1]),
         ("comparability", [some 0]),
         ("exposure", [some 0, some 0, some 0])] := by
  refine ⟨by decide, rfl, rfl⟩

/-! ## Claims on the study registry -/

/-- C3 (the code at the failing input): from the initial registry, add a
study, remove study 1 and add again; the new study gets id 2 (the length of
the list plus 1) while study 2 is still listed, so the ids are [2, 2], not
pairwise distinct, and the new id is not the largest id plus 1. -/
theorem addStudy_reuses_id :
    (removeStudy (addStudy initialRegistry) 1).studies.map Study.id = [2] ∧
    (addStudy (removeStudy (addStudy initialRegistry) 1)).studies.map Study.id = [2, 2] ∧
    ¬ ((addStudy (removeStudy (addStudy initialRegistry) 1)).studies.map Study.id).Nodup := by
  decide

/-- C4: `removeStudy` keeps exactly the studies whose id differs from the
given id, in their original order, so an id that is not listed changes
nothing in the list; when the selection is the removed id it becomes the id
of the first remaining study, or `null` if none remains, and otherwise it is
unchanged. The ids of a registry are positive. -/
theorem removeStudy_spec (r : Registry) (id : Nat)
    (hpos : ∀ study ∈ r.studies, study.id ≠ 0) :
    (removeStudy r id).studies = r.studies.filter (fun study => decide (study.id ≠ id)) ∧
    (removeStudy r id).studies.Sublist r.studies ∧
    (∀ study, study ∈ (removeStudy r id).studies ↔ study ∈ r.studies ∧ study.id ≠ id) ∧
    ((∀ study ∈ r.studies, study.id ≠ id) → (removeStudy r id).studies = r.studies) ∧
    (r.currentStudy = some id →
      (removeStudy r id).currentStudy = (removeStudy r id).studies.head?.map Study.id) ∧
    (r.currentStudy ≠ some id → (removeStudy r id).currentStudy = r.currentStudy) := by
  have hf : (removeStudy r id).studies = r.studies.filter (fun study => decide (study.id ≠ id)) := by
    simp only [removeStudy]
    congr 1
    funext study
    by_cases hs : study.id = id <;> simp [hs]
  refine ⟨hf, ?_, ?_, ?_, ?_, ?_⟩
  · rw [hf]; exact List.filter_sublist _
  · intro study
    rw [hf, List.mem_filter]
    simp
  · intro hall
    rw [hf, List.filter_eq_self]
    intro study hs
    simpa using hall study hs
  · intro hc
    simp only [removeStudy, hc, if_true]
    cases hh : (r.studies.filter (fun study => study.id != id)).head? with
    | none => rfl
    | some s =>
      have hs : s ∈ r.studies := (List.mem_filter.1 (List.mem_of_mem_head? hh)).1
      simp only [Option.map_some']
      exact orNull_of_pos s.id (hpos s hs)
  · intro hc
    simp [removeStudy, hc]

/-- C4 (witness): removing the first study of a two-study registry whose
second study is selected keeps the second study and the selection. -/
theorem removeStudy_spec_witness :
    (removeStudy (addStudy initialRegistry) 1).studies
      = (addStudy initialRegistry).studies.filter (fun study => decide (study.id ≠ 1)) ∧
    (removeStudy (addStudy initialRegistry) 1).studies.Sublist (addStudy initialRegistry).studies ∧
    (∀ study, study ∈ (removeStudy (addStudy initialRegistry) 1).studies ↔
      study ∈ (addStudy initialRegistry).studies ∧ study.id ≠ 1) ∧
    ((∀ study ∈ (addStudy initialRegistry).studies, study.id ≠ 1) →
      (removeStudy (addStudy initialRegistry) 1).studies = (addStudy initialRegistry).studies) ∧
    ((addStudy initialRegistry).currentStudy = some 1 →
      (removeStudy (addStudy initialRegistry) 1).currentStudy
        = (removeStudy (addStudy initialRegistry) 1).studies.head?.map Study.id) ∧
    ((addStudy initialRegistry).currentStudy ≠ some 1 →
      (removeStudy (addStudy initialRegistry) 1).currentStudy
        = (addStudy initialRegistry).currentStudy) :=
  removeStudy_spec (addStudy initialRegistry) 1 (by decide)

/-- C10: in every reachable registry state the selection is `null` or the id
of a listed study, so whenever the selection is not `null` the lookup of the
current study finds a study. -/
theorem selection_valid_of_reachable (r : Registry) (h : Reachable r) :
    (r.currentStudy = none ∨ ∃ study ∈ r.studies, r.currentStudy = some study.id) ∧
    (r.currentStudy ≠ none → ∃ study, currentStudyData r = some study ∧
      study ∈ r.studies ∧ r.currentStudy = some study.id) := by
  have hv := selectionValid_of_reachable h
  refine ⟨hv, ?_⟩
  intro hne
  rcases hv with hv | ⟨s, hs, he⟩
  · exact absurd hv hne
  · have hsome : (currentStudyData r).isSome = true := by
      unfold currentStudyData
      rw [List.find?_isSome]
      exact ⟨s, hs, by simp [he]⟩
    obtain ⟨t, ht⟩ := Option.isSome_iff_exists.1 hsome
    refine ⟨t, ht, ?_, ?_⟩
    · unfold currentStudyData at ht
      exact List.mem_of_find?_eq_some ht
    · unfold currentStudyData at ht
      have := List.find?_some ht
      simp only [decide_eq_true_eq] at this
      exact this.symm

/-- C10 (witness): the state after adding a study and removing the selected
one. -/
theorem selection_valid_of_reachable_witness :
    Reachable (removeStudy (addStudy initialRegistry) 2) ∧
    ((removeStudy (addStudy initialRegistry) 2).currentStudy = none ∨
      ∃ study ∈ (removeStudy (addStudy initialRegistry) 2).studies,
        (removeStudy (addStudy initialRegistry) 2).currentStudy = some study.id) ∧
    ((removeStudy (addStudy initialRegistry) 2).currentStudy ≠ none →
      ∃ study, currentStudyData (removeStudy (addStudy initialRegistry) 2) = some study ∧
        study ∈ (removeStudy (addStudy initialRegistry) 2).studies ∧
        (removeStudy (addStudy initialRegistry) 2).currentStudy = some study.id) :=
  ⟨Reachable.remove 2 (Reachable.add Reachable.init),
    selection_valid_of_reachable _ (Reachable.remove 2 (Reachable.add Reachable.init))⟩

theorem present_map_some (l : List Int) : present (l.map some) = l := by
  induction l with
  | nil => rfl
  | cons a t ih =>
    simp only [present] at ih
    simp [present, ih]

theorem ofRat_zero : JSNum.ofRat 0 = JSNum.fin 0 := by
  have := ofRat_int 0 (by decide)
  simpa using this

theorem addScore_two53_neg :
    addScore (JSNum.fin 9007199254740992) (-9007199254740992) = JSNum.fin 0 := by
  simp only [addScore, JSNum.add]
  rw [← ofRat_zero]
  norm_num

theorem domainSum_five (a b c d e : Int) :
    domainSum [some a, some b, some c, some d, some e]
      = addScore (addScore (addScore (addScore (addScore (JSNum.fin 0) a) b) c) d) e := rfl

theorem risk_five (a b c d e : Int) :
    risk [some a, some b, some c, some d, some e]
      = if (JSNum.divLength (domainSum [some a, some b, some c, some d, some e]) 5).gt (1 / 2)
        then Risk.Low else Risk.High := rfl

theorem domainSum_map_some (l : List Int) (h : absTotal l ≤ 2 ^ 53) :
    domainSum (l.map some) = JSNum.fin ((l.sum : Int) : ℚ) := by
  have := domainSum_exact (l.map some) (by rw [present_map_some]; exact h)
  rw [present_map_some] at this
  exact this

theorem risk_low_iff (scores : List Int) (hne : scores ≠ []) (hlen : scores.length < 2 ^ 32)
    (hsum : absTotal scores ≤ 2 ^ 53) :
    risk (scores.map some) = Risk.Low ↔ 1 / 2 < (scores.sum : ℚ) / (scores.length : ℚ) := by
  have hpos : 0 < scores.length := List.length_pos.2 hne
  have hdiv : JSNum.divLength (domainSum (scores.map some)) (scores.map some).length
      = JSNum.ofRat ((scores.sum : ℚ) / (scores.length : ℚ)) := by
    rw [domainSum_map_some scores hsum, List.length_map]
    simp only [JSNum.divLength]
    rw [if_neg (by omega)]
  unfold risk
  rw [hdiv]
  have hiff := ofRat_gt_iff ((scores.sum : ℚ) / (scores.length : ℚ)) (1 / 2)
    (by norm_num) (by norm_num)
  have hfl := half_lt_fl_div_iff scores.sum scores.length hpos (by
    have : (2 : ℕ) ^ 32 ≤ 2 ^ 52 := by norm_num
    omega)
  by_cases hg : (JSNum.ofRat ((scores.sum : ℚ) / (scores.length : ℚ))).gt (1 / 2) = true
  · rw [if_pos hg]
    simp only [true_iff]
    exact hfl.1 (hiff.1 hg)
  · rw [if_neg hg]
    simp only [false_iff, reduceCtorEq]
    exact fun h => hg (hiff.2 (hfl.2 h))

/-- The percentage computed from a ratio in [0, 1]: two roundings, a result
in [0, 100] within `2 ^ (-45)` of the exact percentage. -/
theorem times100_of_unit (a : ℚ) (h0 : 0 ≤ a) (h1 : a ≤ 1) :
    (JSNum.ofRat a).times100 = JSNum.fin (fl (fl a * 100)) ∧
      0 ≤ fl (fl a * 100) ∧ fl (fl a * 100) ≤ 100 ∧
      |fl (fl a * 100) - 100 * a| < 1 / 2 ^ 45 := by
  have ha0 : 0 ≤ fl a := fl_nonneg h0
  have hea : binExp a ≤ 0 :=
    binExp_le_of_abs_lt a le_rfl (by rw [abs_of_nonneg h0]; norm_num; linarith)
  have ha1 : fl a ≤ 1 := by
    have := fl_le_int (x := a) 1 (by omega) (by simpa using h1)
    simpa using this
  have hp0 : 0 ≤ fl a * 100 := by positivity
  have hp1 : fl a * 100 ≤ 100 := by linarith
  have hep : binExp (fl a * 100) ≤ 6 :=
    binExp_le_of_abs_lt _ (by norm_num) (by rw [abs_of_nonneg hp0]; norm_num; linarith)
  have hr0 : 0 ≤ fl (fl a * 100) := fl_nonneg hp0
  have hr1 : fl (fl a * 100) ≤ 100 := by
    have := fl_le_int (x := fl a * 100) 100 (by omega) (by simpa using hp1)
    simpa using this
  refine ⟨?_, hr0, hr1, ?_⟩
  · rw [ofRat_of_bounded ha0 (by linarith)]
    simp only [JSNum.times100]
    exact ofRat_of_bounded hr0 hr1
  · have e1 : |fl a - a| ≤ 1 / 2 ^ 53 := by
      have h := abs_fl_sub_le a
      have hm : (2 : ℚ) ^ (binExp a - 53) ≤ 2 ^ (-53 : ℤ) := two_zpow_mono (by omega)
      have hv : (2 : ℚ) ^ (-53 : ℤ) = 1 / 2 ^ 53 := by norm_num
      exact le_trans h (le_of_le_of_eq hm hv)
    have e2 : |fl (fl a * 100) - fl a * 100| ≤ 1 / 2 ^ 47 := by
      have h := abs_fl_sub_le (fl a * 100)
      have hm : (2 : ℚ) ^ (binExp (fl a * 100) - 53) ≤ 2 ^ (-47 : ℤ) := two_zpow_mono (by omega)
      have hv : (2 : ℚ) ^ (-47 : ℤ) = 1 / 2 ^ 47 := by norm_num
      exact le_trans h (le_of_le_of_eq hm hv)
    have hsplit : fl (fl a * 100) - 100 * a
        = (fl (fl a * 100) - fl a * 100) + 100 * (fl a - a) := by ring
    rw [hsplit]
    have e3 : |100 * (fl a - a)| ≤ 100 * (1 / 2 ^ 53) := by
      rw [abs_mul, abs_of_pos (by norm_num : (0 : ℚ) < 100)]
      exact mul_le_mul_of_nonneg_left e1 (by norm_num)
    have htri := abs_add (fl (fl a * 100) - fl a * 100) (100 * (fl a - a))
    have hnum : (1 : ℚ) / 2 ^ 47 + 100 * (1 / 2 ^ 53) < 1 / 2 ^ 45 := by norm_num
    linarith

theorem length_filter_isPositive_le (l : List Slot) : (l.filter isPositive).length ≤ l.length :=
  List.length_filter_le _ _

/-- The row of a non-empty pool in terms of the rounded quotients. -/
theorem weightedBarRow_of_pos (allScores : List ScoreSet) (domain : String) (total low : ℕ)
    (htotal : total = (domainScores allScores domain).length)
    (hlow : low = ((domainScores allScores domain).filter isPositive).length)
    (hpos : 0 < total) :
    weightedBarRow allScores domain =
      BarRow.mk domain ((JSNum.ofRat ((low : ℚ) / (total : ℚ))).times100)
        ((JSNum.ofRat (((total : ℚ) - (low : ℚ)) / (total : ℚ))).times100) := by
  unfold weightedBarRow
  simp only [← htotal, ← hlow]
  unfold JSNum.div
  rw [if_neg (by omega), if_neg (by omega)]
  push_cast
  rfl

/-! ## Claims on the classifier and the cross-study aggregator -/

/-- C1 (amended): for a non-empty array of integer scores whose absolute
values add up to at most `2 ^ 53`, so that the binary64 sum is exact (an
array is shorter than `2 ^ 32`), the domain is Low exactly when the mean of
the scores is above 0.5 and High otherwise; [0] is High, [1] is Low, [1, 0] is
High and [2, 0] is Low. -/
theorem risk_low_iff_mean_gt_half (scores : List Int) (hne : scores ≠ [])
    (hlen : scores.length < 2 ^ 32) (hsum : absTotal scores ≤ 2 ^ 53) :
    (risk (scores.map some) = Risk.Low ↔ 1 / 2 < (scores.sum : ℚ) / (scores.length : ℚ)) ∧
    (risk (scores.map some) = Risk.High ↔ ¬ 1 / 2 < (scores.sum : ℚ) / (scores.length : ℚ)) ∧
    risk [some 0] = Risk.High ∧ risk [some 1] = Risk.Low ∧
    risk [some 1, some 0] = Risk.High ∧ risk [some 2, some 0] = Risk.Low := by
  have hhigh : ∀ l : List Int, l ≠ [] → l.length < 2 ^ 32 → absTotal l ≤ 2 ^ 53 →
      (risk (l.map some) = Risk.High ↔ ¬ 1 / 2 < (l.sum : ℚ) / (l.length : ℚ)) := by
    intro l h1 h2 h3
    rw [← risk_low_iff l h1 h2 h3]
    cases risk (l.map some) <;> simp
  refine ⟨risk_low_iff scores hne hlen hsum, hhigh scores hne hlen hsum, ?_, ?_, ?_, ?_⟩
  · exact (hhigh [0] (by simp) (by norm_num) (by decide)).2 (by norm_num)
  · exact (risk_low_iff [1] (by simp) (by norm_num) (by decide)).2 (by norm_num)
  · exact (hhigh [1, 0] (by simp) (by norm_num) (by decide)).2 (by norm_num)
  · exact (risk_low_iff [2, 0] (by simp) (by norm_num) (by decide)).2 (by norm_num)

/-- C1 (witness): the array [2, 0]. -/
theorem risk_low_iff_mean_gt_half_witness :
    ([2, 0] : List Int) ≠ [] ∧ ([2, 0] : List Int).length < 2 ^ 32 ∧
    absTotal [2, 0] ≤ 2 ^ 53 ∧
    (risk (([2, 0] : List Int).map some) = Risk.Low ↔
      1 / 2 < ((([2, 0] : List Int).sum : Int) : ℚ) / ((([2, 0] : List Int).length : Nat) : ℚ)) ∧
    (risk (([2, 0] : List Int).map some) = Risk.High ↔
      ¬ 1 / 2 < ((([2, 0] : List Int).sum : Int) : ℚ) / ((([2, 0] : List Int).length : Nat) : ℚ)) ∧
    risk [some 0] = Risk.High ∧ risk [some 1] = Risk.Low ∧
    risk [some 1, some 0] = Risk.High ∧ risk [some 2, some 0] = Risk.Low :=
  ⟨by decide, by decide, by decide,
    risk_low_iff_mean_gt_half [2, 0] (by decide) (by decide) (by decide)⟩

/-- C1 (counterexample): for the scores [2^53, 1, 1, 1, -2^53] the mean is
3/5, above 0.5, but the binary64 sum is 0, because 2^53 + 1 rounds back to
2^53 three times, so the domain is High. -/
theorem risk_high_despite_mean_above_half :
    domainSum [some 9007199254740992, some 1, some 1, some 1, some (-9007199254740992)]
      = JSNum.fin 0 ∧
    risk [some 9007199254740992, some 1, some 1, some 1, some (-9007199254740992)]
      = Risk.High ∧
    (1 : ℚ) / 2 < ((9007199254740992 + 1 + 1 + 1 + -9007199254740992 : Int) : ℚ) / 5 := by
  have hsum : domainSum
      [some 9007199254740992, some 1, some 1, some 1, some (-9007199254740992)]
      = JSNum.fin 0 := by
    rw [domainSum_five, addScore_zero_two53, addScore_two53_one, addScore_two53_one,
      addScore_two53_one, addScore_two53_neg]
  refine ⟨hsum, ?_, by norm_num⟩
  rw [risk_five, hsum]
  have hd : JSNum.divLength (JSNum.fin 0) 5 = JSNum.fin 0 := by
    simp only [JSNum.divLength]
    rw [if_neg (by norm_num)]
    have : (0 : ℚ) / ((5 : ℕ) : ℚ) = 0 := by norm_num
    rw [this, ofRat_zero]
  rw [hd]
  simp [JSNum.gt]

/-- C2 (amended): for a non-empty pool, with `total` its length and `low` the
number of its entries above 0, the row holds the binary64 values
`fl (fl (low / total) * 100)` and `fl (fl ((total - low) / total) * 100)`,
each operation rounded to nearest. Both lie in [0, 100], each is within
`2 ^ (-45)` of the exact percentage, and their sum is within `2 ^ (-44)` of
100. For the pool [1,1,1,1,0,0,0,0] they are exactly 50 and 50. -/
theorem weightedBarRow_percentages (allScores : List ScoreSet) (domain : String)
    (total low : ℕ)
    (htotal : total = (domainScores allScores domain).length)
    (hlow : low = ((domainScores allScores domain).filter isPositive).length)
    (hpos : 0 < total) :
    ∃ lowRisk highRisk : ℚ,
      weightedBarRow allScores domain
        = BarRow.mk domain (JSNum.fin lowRisk) (JSNum.fin highRisk) ∧
      lowRisk = fl (fl ((low : ℚ) / (total : ℚ)) * 100) ∧
      highRisk = fl (fl (((total : ℚ) - (low : ℚ)) / (total : ℚ)) * 100) ∧
      0 ≤ lowRisk ∧ lowRisk ≤ 100 ∧ 0 ≤ highRisk ∧ highRisk ≤ 100 ∧
      |lowRisk - 100 * (low : ℚ) / (total : ℚ)| < 1 / 2 ^ 45 ∧
      |highRisk - 100 * ((total : ℚ) - (low : ℚ)) / (total : ℚ)| < 1 / 2 ^ 45 ∧
      |lowRisk + highRisk - 100| < 1 / 2 ^ 44 ∧
      (domainScores allScores domain
          = [some 1, some 1, some 1, some 1, some 0, some 0, some 0, some 0] →
        lowRisk = 50 ∧ highRisk = 50) := by
  have htq : (0 : ℚ) < total := by exact_mod_cast hpos
  have hle : low ≤ total := by
    rw [htotal, hlow]; exact length_filter_isPositive_le _
  have hleq : (low : ℚ) ≤ total := by exact_mod_cast hle
  have ha0 : 0 ≤ (low : ℚ) / (total : ℚ) := by positivity
  have ha1 : (low : ℚ) / (total : ℚ) ≤ 1 := (div_le_one htq).2 hleq
  have hb0 : 0 ≤ ((total : ℚ) - (low : ℚ)) / (total : ℚ) :=
    div_nonneg (by linarith) (le_of_lt htq)
  have hb1 : ((total : ℚ) - (low : ℚ)) / (total : ℚ) ≤ 1 :=
    (div_le_one htq).2 (by
      have : (0 : ℚ) ≤ low := by positivity
      linarith)
  obtain ⟨l1, l2, l3, l4⟩ := times100_of_unit _ ha0 ha1
  obtain ⟨r1, r2, r3, r4⟩ := times100_of_unit _ hb0 hb1
  refine ⟨_, _, ?_, rfl, rfl, l2, l3, r2, r3, ?_, ?_, ?_, ?_⟩
  · rw [weightedBarRow_of_pos allScores domain total low htotal hlow hpos, l1, r1]
  · rw [mul_div_assoc]; exact l4
  · rw [mul_div_assoc]; exact r4
  · have hsum : fl (fl ((low : ℚ) / (total : ℚ)) * 100)
          + fl (fl (((total : ℚ) - (low : ℚ)) / (total : ℚ)) * 100) - 100
        = (fl (fl ((low : ℚ) / (total : ℚ)) * 100) - 100 * ((low : ℚ) / (total : ℚ)))
          + (fl (fl (((total : ℚ) - (low : ℚ)) / (total : ℚ)) * 100)
              - 100 * (((total : ℚ) - (low : ℚ)) / (total : ℚ))) := by
      field_simp
      ring
    rw [hsum]
    have htri := abs_add
      (fl (fl ((low : ℚ) / (total : ℚ)) * 100) - 100 * ((low : ℚ) / (total : ℚ)))
      (fl (fl (((total : ℚ) - (low : ℚ)) / (total : ℚ)) * 100)
        - 100 * (((total : ℚ) - (low : ℚ)) / (total : ℚ)))
    have hnum : (1 : ℚ) / 2 ^ 45 + 1 / 2 ^ 45 = 1 / 2 ^ 44 := by norm_num
    linarith
  · intro hpool
    have ht : total = 8 := by rw [htotal, hpool]; rfl
    have hl : low = 4 := by rw [hlow, hpool]; rfl
    subst ht hl
    have hhalf : ((4 : ℕ) : ℚ) / ((8 : ℕ) : ℚ) = 1 / 2 := by norm_num
    have hhalf2 : (((8 : ℕ) : ℚ) - ((4 : ℕ) : ℚ)) / ((8 : ℕ) : ℚ) = 1 / 2 := by norm_num
    have h50 : (1 : ℚ) / 2 * 100 = 50 := by norm_num
    rw [hhalf, hhalf2, fl_half, h50, fl_fifty]
    exact ⟨rfl, rfl⟩

/-- C2 (witness): a fully starred study and a study left at zero, pooled
selection scores [1,1,1,1,0,0,0,0]. -/
theorem weightedBarRow_percentages_witness :
    (8 = (domainScores
        [[("selection", [some 1, some 1, some 1, some 1])],
        [("selection", [some 0, some 0, some 0, some 0])]] "selection").length ∧
     4 = ((domainScores
        [[("selection", [some 1, some 1, some 1, some 1])],
        [("selection", [some 0, some 0, some 0, some 0])]] "selection").filter isPositive).length ∧
     0 < 8) ∧
    ∃ lowRisk highRisk : ℚ,
      weightedBarRow
        [[("selection", [some 1, some 1, some 1, some 1])],
        [("selection", [some 0, some 0, some 0, some 0])]] "selection"
        = BarRow.mk "selection" (JSNum.fin lowRisk) (JSNum.fin highRisk) ∧
      lowRisk = fl (fl (((4 : ℕ) : ℚ) / ((8 : ℕ) : ℚ)) * 100) ∧
      highRisk = fl (fl ((((8 : ℕ) : ℚ) - ((4 : ℕ) : ℚ)) / ((8 : ℕ) : ℚ)) * 100) ∧
      0 ≤ lowRisk ∧ lowRisk ≤ 100 ∧ 0 ≤ highRisk ∧ highRisk ≤ 100 ∧
      |lowRisk - 100 * ((4 : ℕ) : ℚ) / ((8 : ℕ) : ℚ)| < 1 / 2 ^ 45 ∧
      |highRisk - 100 * (((8 : ℕ) : ℚ) - ((4 : ℕ) : ℚ)) / ((8 : ℕ) : ℚ)| < 1 / 2 ^ 45 ∧
      |lowRisk + highRisk - 100| < 1 / 2 ^ 44 ∧
      (domainScores
        [[("selection", [some 1, some 1, some 1, some 1])],
        [("selection", [some 0, some 0, some 0, some 0])]] "selection"
          = [some 1, some 1, some 1, some 1, some 0, some 0, some 0, some 0] →
        lowRisk = 50 ∧ highRisk = 50) :=
  ⟨⟨by decide, by decide, by decide⟩,
    weightedBarRow_percentages
      [[("selection", [some 1, some 1, some 1, some 1])],
        [("selection", [some 0, some 0, some 0, some 0])]] "selection"
      8 4 (by decide) (by decide) (by decide)⟩

/-- C2 (counterexample): for the pool [1, 0, 0] the row holds
33.33333333333333 and 66.66666666666666 as binary64 values; their sum is
not 100 and the first is not 100 * 1 / 3. -/
theorem weightedBarRow_sum_not_100 :
    weightedBarRow [[("selection", [some 1, some 0, some 0])]] "selection"
      = BarRow.mk "selection" (JSNum.fin (2345624805922133 / 2 ^ 46))
          (JSNum.fin (2345624805922133 / 2 ^ 45)) ∧
    (2345624805922133 / 2 ^ 46 + 2345624805922133 / 2 ^ 45 : ℚ) ≠ 100 ∧
    (2345624805922133 / 2 ^ 46 : ℚ) ≠ 100 * 1 / 3 := by
  refine ⟨?_, by norm_num, by norm_num⟩
  rw [weightedBarRow_of_pos [[("selection", [some 1, some 0, some 0])]] "selection" 3 1
    (by decide) (by decide) (by decide)]
  have h1 : ((1 : ℕ) : ℚ) / ((3 : ℕ) : ℚ) = 1 / 3 := by norm_num
  have h2 : (((3 : ℕ) : ℚ) - ((1 : ℕ) : ℚ)) / ((3 : ℕ) : ℚ) = 2 / 3 := by norm_num
  have o1 : JSNum.ofRat (1 / 3) = JSNum.fin (6004799503160661 / 2 ^ 54) := by
    rw [← fl_third]
    exact ofRat_of_bounded (by rw [fl_third]; norm_num) (by rw [fl_third]; norm_num)
  have o2 : JSNum.ofRat (2 / 3) = JSNum.fin (6004799503160661 / 2 ^ 53) := by
    rw [← fl_two_thirds]
    exact ofRat_of_bounded (by rw [fl_two_thirds]; norm_num) (by rw [fl_two_thirds]; norm_num)
  have p1 : JSNum.ofRat (6004799503160661 / 2 ^ 54 * 100)
      = JSNum.fin (2345624805922133 / 2 ^ 46) := by
    rw [← fl_third_times_100]
    exact ofRat_of_bounded (by rw [fl_third_times_100]; norm_num)
      (by rw [fl_third_times_100]; norm_num)
  have p2 : JSNum.ofRat (6004799503160661 / 2 ^ 53 * 100)
      = JSNum.fin (2345624805922133 / 2 ^ 45) := by
    rw [← fl_two_thirds_times_100]
    exact ofRat_of_bounded (by rw [fl_two_thirds_times_100]; norm_num)
      (by rw [fl_two_thirds_times_100]; norm_num)
  rw [h1, h2, o1, o2]
  simp only [JSNum.times100]
  rw [p1, p2]

theorem domainScores_of_missing (allScores : List ScoreSet) (domain : String)
    (h : ∀ score ∈ allScores, score.lookup domain = none) :
    domainScores allScores domain = List.replicate allScores.length none := by
  induction allScores with
  | nil => rfl
  | cons s t ih =>
    have hs := h s (List.mem_cons_self _ _)
    have ht := ih (fun score hm => h score (List.mem_cons_of_mem _ hm))
    unfold domainScores at ht ⊢
    simp only [List.map_cons, List.flatMap_cons, hs, ht, List.length_cons, List.replicate_succ]
    rfl

/-- C6 (amended): when the pool is empty (no studies, or every study's array
for the domain is empty) both percentages are NaN, the value of `0 / 0 * 100`;
nothing is thrown. Studies that lack the domain do not give an empty pool:
each contributes one `undefined` entry that counts in `total` and not in
`low`, so when no study has the domain the row is 0 and 100. -/
theorem weightedBarRow_empty_pool (allScores : List ScoreSet) (domain : String) :
    (domainScores allScores domain = [] →
      weightedBarRow allScores domain = BarRow.mk domain JSNum.nan JSNum.nan) ∧
    (allScores ≠ [] → (∀ score ∈ allScores, score.lookup domain = none) →
      weightedBarRow allScores domain = BarRow.mk domain (JSNum.fin 0) (JSNum.fin 100)) := by
  constructor
  · intro h
    unfold weightedBarRow
    rw [h]
    rfl
  · intro hne hmiss
    have hd := domainScores_of_missing allScores domain hmiss
    have hpos : 0 < allScores.length := List.length_pos.2 hne
    have hfilter : ((domainScores allScores domain).filter isPositive).length = 0 := by
      rw [hd, List.length_eq_zero, List.filter_eq_nil_iff]
      intro a ha
      rw [List.eq_of_mem_replicate ha]
      simp [isPositive]
    rw [weightedBarRow_of_pos allScores domain allScores.length 0
      (by rw [hd, List.length_replicate]) hfilter.symm hpos]
    have hq : (0 : ℚ) < allScores.length := by exact_mod_cast hpos
    have h0 : ((0 : ℕ) : ℚ) / (allScores.length : ℚ) = 0 := by simp
    have h1 : ((allScores.length : ℚ) - ((0 : ℕ) : ℚ)) / (allScores.length : ℚ) = 1 := by
      rw [Nat.cast_zero, sub_zero, div_self (ne_of_gt hq)]
    have o0 : JSNum.ofRat 0 = JSNum.fin 0 := by
      have := ofRat_of_bounded (x := 0) (by rw [fl_zero]) (by rw [fl_zero]; norm_num)
      rw [this, fl_zero]
    have o1 : JSNum.ofRat 1 = JSNum.fin 1 := by
      have := ofRat_of_bounded (x := 1) (by rw [fl_one]; norm_num) (by rw [fl_one]; norm_num)
      rw [this, fl_one]
    have o100 : JSNum.ofRat 100 = JSNum.fin 100 := by
      have := ofRat_of_bounded (x := 100) (by rw [fl_hundred]; norm_num)
        (by rw [fl_hundred])
      rw [this, fl_hundred]
    rw [h0, h1, o0, o1]
    simp only [JSNum.times100]
    rw [zero_mul, one_mul, o0, o100]

/-- C6 (witness): no studies, and one study whose scores object is still
empty. -/
theorem weightedBarRow_empty_pool_witness :
    (domainScores [] "selection" = [] ∧
      weightedBarRow [] "selection" = BarRow.mk "selection" JSNum.nan JSNum.nan) ∧
    (([[]] : List ScoreSet) ≠ [] ∧
      (∀ score ∈ ([[]] : List ScoreSet), score.lookup "selection" = none) ∧
      weightedBarRow [[]] "selection"
        = BarRow.mk "selection" (JSNum.fin 0) (JSNum.fin 100)) :=
  ⟨⟨rfl, (weightedBarRow_empty_pool [] "selection").1 rfl⟩,
    ⟨by decide, by simp,
      (weightedBarRow_empty_pool [[]] "selection").2 (by decide) (by simp)⟩⟩

/-- C6 (counterexample): with no studies the row holds NaN twice, not 0. -/
theorem weightedBarRow_no_studies_nan :
    weightedBarRow [] "selection" = BarRow.mk "selection" JSNum.nan JSNum.nan ∧
    (weightedBarRow [] "selection").lowRisk ≠ JSNum.fin 0 ∧
    (weightedBarRow [] "selection").highRisk ≠ JSNum.fin 0 := by
  decide

end RiskOfBias
